import Mathlib

/-!
# Provider: a lazily initialised, resettable, overridable value holder

A shallow embedding of `provider.go` (package `provider`) and proofs about its
behaviour: first for calls made one after the other, then for a call that arrives
while another is inside the initializer, and for goroutines that call `Get`
concurrently under an arbitrary schedule.

Modelling conventions.

* A Go initializer `func(ctx context.Context) (T, error)` is a closure: it may read and
  update state it has captured (an invocation counter, say).  It is embedded as a
  function that threads a captured state `W` and returns the Go result pair, the
  `error` component being `none` for Go's `nil`.
* The primary initializer `fn` is a function value; `tempFn` is an optional one, because
  the code tests `p.tempFn != nil`.
* `sync.Once` is its `done` flag.  `Once.Do` stores `done` in a deferred call, hence also
  when the function it runs panics.
* `sync.Mutex`: every method locks `mu` on entry and unlocks it in a deferred call, so
  in a sequential run `mu` is free at every call boundary; it carries no information and
  is not a field of the embedded struct.  The lock is brought in, next to the system,
  where a property is about one caller waiting for another (sections "The lock" and
  "Concurrent calls of `Get`"); there `sync.Once` is its `done` flag and its mutex.
* A panic is an outcome of `Get` of its own, carrying the error value passed to `panic`.
* Every invocation of an initializer is appended to a log, recording the field of the
  struct the function was taken from and the context it received.
-/

namespace provider

/-! ## Go error values -/

/-- Go error values as this package meets them: an opaque leaf error (such as the result
of `errors.New`) or the wrapper built by `fmt.Errorf` with the verb `%w`. -/
inductive GoError where
  | errorString (s : String)
  | wrapError (msg : String) (err : GoError)
deriving DecidableEq, Repr

/-- The method `Error()` of an error value. -/
def GoError.Error : GoError → String
  | .errorString s => s
  | .wrapError msg _ => msg

/-- The method `Unwrap()` of an error value (`errors.Unwrap`): the wrapped cause. -/
def GoError.Unwrap : GoError → Option GoError
  | .errorString _ => none
  | .wrapError _ err => some err

/-- The call `fmt.Errorf(format ++ "%w", err)` for a format without other verbs: the
message is the format text followed by `err.Error()`, and the value wraps `err`. -/
def Errorf (format : String) (err : GoError) : GoError :=
  .wrapError (format ++ err.Error) err

/-! ## The provider -/

/-- The type `func(ctx context.Context) (T, error)`, for closures over a state `W`. -/
abbrev InitFn (W C T : Type) : Type := C → W → (T × Option GoError) × W

/-- The type `sync.Once`. -/
structure Once where
  done : Bool
deriving DecidableEq, Repr

/-- The struct `Provider[T]` (provider.go lines 9-15). -/
structure Provider (W C T : Type) where
  fn : InitFn W C T
  tempFn : Option (InitFn W C T)
  result : T
  once : Once

/-- The field of the provider an invoked initializer was read from. -/
inductive Slot where
  | fn
  | tempFn
deriving DecidableEq, Repr

/-- One invocation of an initializer: which field held it and the context passed. -/
structure Call (C : Type) where
  slot : Slot
  ctx : C
deriving DecidableEq, Repr

/-- How a call of `Get` ends: it returns a value or it panics with an error value. -/
inductive Outcome (T : Type) where
  | returned (v : T)
  | panicked (e : GoError)
deriving DecidableEq, Repr

/-- The memory a run acts on: the provider object, the state captured by the initializer
closures, and the log of initializer invocations (oldest first). -/
structure Sys (W C T : Type) where
  p : Provider W C T
  world : W
  calls : List (Call C)

variable {W C T : Type}

/-- The function `Provide` (provider.go lines 20-22): a struct literal that sets `fn`
and leaves every other field at its zero value. -/
def Provide [Inhabited T] (fn : InitFn W C T) : Provider W C T :=
  { fn := fn, tempFn := none, result := default, once := { done := false } }

/-- Selection of the initializer in `Get` (provider.go lines 32-35):
`fn := p.fn; if p.tempFn != nil { fn = p.tempFn }`, with the field it came from. -/
def Provider.selected (p : Provider W C T) : Slot × InitFn W C T :=
  match p.tempFn with
  | some g => (Slot.tempFn, g)
  | none => (Slot.fn, p.fn)

/-- The function literal `Get` passes to `once.Do` (provider.go lines 28-42).  It
returns `some e` when it panics with `e`. -/
def Provider.initBody (ctx : C) (s : Sys W C T) : Option GoError × Sys W C T :=
  let sel := s.p.selected
  let r := sel.2 ctx s.world
  let s1 : Sys W C T := { s with world := r.2, calls := s.calls ++ [{ slot := sel.1, ctx := ctx }] }
  match r.1.2 with
  | some err => (some (Errorf "initialization failed: " err), s1)
  | none => (none, { s1 with p := { s1.p with result := r.1.1 } })

/-- The method `sync.Once.Do`: `f` runs only when `done` is unset, and `done` is set by
a deferred store, so whether `f` returns or panics. -/
def Once.Do {σ : Type} (o : Once) (f : σ → Option GoError × σ) (st : σ) :
    Option GoError × σ × Once :=
  if o.done then (none, st, o)
  else
    let r := f st
    (r.1, r.2, { done := true })

/-- The method `Get` (provider.go lines 27-44). -/
def Sys.Get (s : Sys W C T) (ctx : C) : Outcome T × Sys W C T :=
  let r := s.p.once.Do (Provider.initBody ctx) s
  let s1 : Sys W C T := { r.2.1 with p := { r.2.1.p with once := r.2.2 } }
  match r.1 with
  | some e => (Outcome.panicked e, s1)
  | none => (Outcome.returned s1.p.result, s1)

/-- The method `Reset` (provider.go lines 49-57). -/
def Provider.Reset [Inhabited T] (p : Provider W C T) : Provider W C T :=
  { p with once := { done := false }, result := default, tempFn := none }

/-- The method `Temporarily` (provider.go lines 61-67); `none` is a nil function. -/
def Provider.Temporarily (p : Provider W C T) (fn : Option (InitFn W C T)) :
    Provider W C T :=
  { p with tempFn := fn, once := { done := false } }

/-- Calling `Provide(fn)` in a memory whose captured state is `w` and whose log is `l`:
the body is a struct literal and makes no call, so both are passed on as they are. -/
def Sys.Provide [Inhabited T] (fn : InitFn W C T) (w : W) (l : List (Call C)) :
    Sys W C T :=
  { p := provider.Provide fn, world := w, calls := l }

/-- Calling `Reset` on the provider of a system. -/
def Sys.Reset [Inhabited T] (s : Sys W C T) : Sys W C T :=
  { s with p := s.p.Reset }

/-- Calling `Temporarily` on the provider of a system. -/
def Sys.Temporarily (s : Sys W C T) (fn : Option (InitFn W C T)) : Sys W C T :=
  { s with p := s.p.Temporarily fn }

/-- Sequential calls `Get(c1); ...; Get(cn)`: the outcomes in order and the final
system.  A panicking call is recovered by the caller, who goes on with the next call. -/
def Sys.GetAll (s : Sys W C T) : List C → List (Outcome T) × Sys W C T
  | [] => ([], s)
  | c :: cs =>
    let r := s.Get c
    let rest := Sys.GetAll r.2 cs
    (r.1 :: rest.1, rest.2)

/-- Number of logged invocations of the function held in the given field. -/
def countSlot (sl : Slot) (l : List (Call C)) : Nat :=
  (l.filter (fun c => decide (c.slot = sl))).length

/-! ## Concrete initializers, after the test suite

The captured state is an invocation counter, contexts are numbers, and the value type
is the interface `Client` of `provider_test.go` with its two implementations. -/

/-- Values of the interface type `Client` in `provider_test.go`; `nil` is its zero
value. -/
inductive Client where
  | nil
  | RealClient
  | FakeClient
deriving DecidableEq, Repr

instance : Inhabited Client := ⟨Client.nil⟩

/-- The initializer of `TestProvider_Get`, which returns `&RealClient{}, nil`, made to
count its invocations in the captured state. -/
def realInit : InitFn Nat Nat Client :=
  fun _ n => ((Client.RealClient, none), n + 1)

/-- The override of `TestProvider_Temporarily`, which returns `&FakeClient{}, nil`,
made to count its invocations. -/
def fakeInit : InitFn Nat Nat Client :=
  fun _ n => ((Client.FakeClient, none), n + 1)

/-- The initializer of `TestProvider_ErrorHandling`, which returns
`nil, errors.New("failed to initialize")`, made to count its invocations. -/
def failingInit : InitFn Nat Nat Client :=
  fun _ n => ((Client.nil, some (GoError.errorString "failed to initialize")), n + 1)

/-- A fresh system around `Provide(realInit)`: counter at zero, empty log. -/
def realSys : Sys Nat Nat Client :=
  Sys.Provide realInit 0 []

/-- A fresh system around `Provide(failingInit)`, as in `TestProvider_ErrorHandling`. -/
def failingSys : Sys Nat Nat Client :=
  Sys.Provide failingInit 0 []

/-! ## Sequences of calls -/

/-- One call on a provider: `Get(ctx)`, `Reset()` or `Temporarily(fn)`. -/
inductive Op (W C T : Type) where
  | Get (ctx : C)
  | Reset
  | Temporarily (fn : Option (InitFn W C T))

/-- Whether a call is a `Get`; `Reset` and `Temporarily` are the calls that begin a new
epoch. -/
def Op.isGet : Op W C T → Bool
  | .Get _ => true
  | .Reset => false
  | .Temporarily _ => false

/-- One call made on a system: the outcome, if the call is a `Get`, and the system
after it. -/
def Sys.step [Inhabited T] (s : Sys W C T) : Op W C T → Option (Outcome T) × Sys W C T
  | .Get ctx => (some (s.Get ctx).1, (s.Get ctx).2)
  | .Reset => (none, s.Reset)
  | .Temporarily fn => (none, s.Temporarily fn)

/-- A finite sequence of calls made one after the other: the outcomes of its `Get`
calls, in order, and the final system.  A panicking `Get` is recovered by the caller. -/
def Sys.run [Inhabited T] (s : Sys W C T) : List (Op W C T) → List (Outcome T) × Sys W C T
  | [] => ([], s)
  | op :: ops =>
    let r := s.step op
    let rest := Sys.run r.2 ops
    (r.1.toList ++ rest.1, rest.2)

/-- The calls `Get(c1), ..., Get(cn)` as a sequence of calls. -/
def gets (cs : List C) : List (Op W C T) :=
  cs.map Op.Get

/-! ## The epoch reference model

These definitions follow the wording of the specification, not the code: an epoch
begins at construction and at every `Reset` or `Temporarily`; the initializer of an
epoch is the function of the most recent `Temporarily` if no `Reset` came after it, and
the primary otherwise; the first `Get` of an epoch runs that initializer on its context
and every `Get` of the epoch returns the value so obtained.  The model describes runs in
which every initializer succeeds and has no notion of failure. -/

/-- Whether every initializer invocation made by a sequence of calls succeeds: each
`Get` of the sequence that finds the once-guard unset selects an initializer that
returns no error on the context of that `Get`, in the captured state of that moment.
Initializers that the sequence never runs, and contexts and captured states it does
not meet, are not looked at. -/
def invocationsSucceed [Inhabited T] (s : Sys W C T) : List (Op W C T) → Bool
  | [] => true
  | op :: ops =>
    (match op with
      | .Get ctx => s.p.once.done || (s.p.selected.2 ctx s.world).1.2.isNone
      | .Reset => true
      | .Temporarily _ => true)
      && invocationsSucceed (s.step op).2 ops

/-- State of the epoch reference model: the primary initializer, the function of the
most recent `Temporarily` if no `Reset` came after it (`none` otherwise, and when that
`Temporarily` was given no function), the value of the current epoch once its first
`Get` has been made, and the state captured by the closures. -/
structure EpochRef (W C T : Type) where
  primary : InitFn W C T
  override : Option (InitFn W C T)
  value : Option T
  world : W

/-- The reference model at construction. -/
def EpochRef.start (primary : InitFn W C T) (w : W) : EpochRef W C T :=
  { primary := primary, override := none, value := none, world := w }

/-- One call in the reference model; a `Get` yields the value of its epoch. -/
def EpochRef.step (e : EpochRef W C T) : Op W C T → Option T × EpochRef W C T
  | .Get ctx =>
    match e.value with
    | some v => (some v, e)
    | none =>
      let r := (e.override.getD e.primary) ctx e.world
      (some r.1.1, { e with value := some r.1.1, world := r.2 })
  | .Reset => (none, { e with override := none, value := none })
  | .Temporarily fn => (none, { e with override := fn, value := none })

/-- A sequence of calls in the reference model: the values its `Get` calls yield. -/
def EpochRef.run (e : EpochRef W C T) : List (Op W C T) → List T × EpochRef W C T
  | [] => ([], e)
  | op :: ops =>
    let r := e.step op
    let rest := EpochRef.run r.2 ops
    (r.1.toList ++ rest.1, rest.2)

/-- The relation kept between a system and a state of the reference model along a
sequence of calls whose initializer invocations all succeed: same primary, same
override, same captured state, and the once-guard is set exactly when the epoch has its
value, which is then the stored result. -/
def Sim (s : Sys W C T) (e : EpochRef W C T) : Prop :=
  s.p.fn = e.primary ∧ s.p.tempFn = e.override ∧ s.world = e.world
    ∧ (match e.value with
        | none => s.p.once.done = false
        | some v => s.p.once.done = true ∧ s.p.result = v)

/-- An initializer that fails when given context `0` and returns `&RealClient{}, nil`
otherwise, counting its invocations. -/
def flakyInit : InitFn Nat Nat Client :=
  fun ctx n =>
    if ctx = 0 then ((Client.nil, some (GoError.errorString "unavailable")), n + 1)
    else ((Client.RealClient, none), n + 1)

/-! ## The lock

`Get` takes `p.mu` inside the function it hands to `once.Do`, before it selects and
calls the initializer, and releases it by a deferred call; `Reset` and `Temporarily`
take it on entry.  To speak of a call made by another goroutine while a `Get` is inside
its initializer, `Get` is split here at the call `fn(ctx)` and at the deferred
`p.mu.Unlock()`. -/

/-- The type `sync.Mutex`: whether it is held. -/
structure Mutex where
  locked : Bool
deriving DecidableEq, Repr

/-- The method `Lock`, which returns once the caller holds the mutex: `none` stands for
a caller that waits because the mutex is held. -/
def Mutex.Lock (m : Mutex) : Option Mutex :=
  if m.locked then none else some { locked := true }

/-- The method `Unlock`. -/
def Mutex.Unlock (_m : Mutex) : Mutex :=
  { locked := false }

/-- The memory concurrent callers share: the system together with the field `mu`. -/
structure Shared (W C T : Type) where
  mu : Mutex
  sys : Sys W C T

/-- A call of `Get` that is inside `fn(ctx)` (provider.go line 37): the selected
function, the field it was read from and the context. -/
structure Running (W C T : Type) where
  slot : Slot
  fn : InitFn W C T
  ctx : C

/-- How far a call of `Get` gets up to the invocation of the initializer. -/
inductive GetEntry (W C T : Type) where
  | cached (v : T)
  | waiting
  | running (m : Shared W C T) (r : Running W C T)

/-- The method `Get` up to the call `fn(ctx)` (provider.go lines 28-37).  When the
once-guard is set, `once.Do` does nothing and `Get` returns `p.result`.  Otherwise the
function literal runs: it locks `p.mu` (waiting if it is held), selects the
initializer and calls it; `running m r` is the shared memory `m` while that call `r`
is executing. -/
def Shared.GetEnter (m : Shared W C T) (ctx : C) : GetEntry W C T :=
  if m.sys.p.once.done then GetEntry.cached m.sys.p.result
  else
    match m.mu.Lock with
    | none => GetEntry.waiting
    | some mu1 =>
      GetEntry.running { mu := mu1, sys := m.sys }
        { slot := m.sys.p.selected.1, fn := m.sys.p.selected.2, ctx := ctx }

/-- The function literal of `Get` from the return of `fn(ctx)` to the end of its body
(provider.go lines 37-41), the lock still held: the invocation is logged and the
captured state is the one the initializer left; on an error the literal panics
(`some e`) and stores nothing, otherwise it stores the value in `p.result`. -/
def Shared.GetCommit (m : Shared W C T) (r : Running W C T) :
    Option GoError × Shared W C T :=
  let res := r.fn r.ctx m.sys.world
  let s1 : Sys W C T :=
    { m.sys with world := res.2, calls := m.sys.calls ++ [{ slot := r.slot, ctx := r.ctx }] }
  match res.1.2 with
  | some err => (some (Errorf "initialization failed: " err), { m with sys := s1 })
  | none => (none, { m with sys := { s1 with p := { s1.p with result := res.1.1 } } })

/-- The deferred `p.mu.Unlock()` of the function literal (provider.go line 30).  It runs
when the literal returns or panics, hence before `sync.Once` stores its `done` flag and
before `Get` reads `p.result` at line 43. -/
def Shared.GetUnlock (m : Shared W C T) : Shared W C T :=
  { m with mu := m.mu.Unlock }

/-- The method `Reset` on shared memory (provider.go lines 49-57): `none` when the call
waits at `p.mu.Lock()`. -/
def Shared.Reset [Inhabited T] (m : Shared W C T) : Option (Shared W C T) :=
  match m.mu.Lock with
  | none => none
  | some mu1 => some { mu := mu1.Unlock, sys := m.sys.Reset }

/-- The method `Temporarily` on shared memory (provider.go lines 61-67): `none` when the
call waits at `p.mu.Lock()`. -/
def Shared.Temporarily (m : Shared W C T) (fn : Option (InitFn W C T)) :
    Option (Shared W C T) :=
  match m.mu.Lock with
  | none => none
  | some mu1 => some { mu := mu1.Unlock, sys := m.sys.Temporarily fn }

/-- The fresh system `realSys` with its lock free. -/
def realShared : Shared Nat Nat Client :=
  { mu := { locked := false }, sys := realSys }

/-! ## Concurrent calls of `Get`

Goroutines that call `Get` on one provider, run under an arbitrary schedule.  Each
shared-memory action of `Get` and of `sync.Once.Do` is a step of its own:

    func (o *Once) Do(f func()) { if o.done.Load() == 0 { o.doSlow(f) } }
    func (o *Once) doSlow(f func()) {
        o.m.Lock(); defer o.m.Unlock()
        if o.done.Load() == 0 { defer o.done.Store(1); f() }
    }

A step of a goroutine that waits for a mutex leaves the state as it is. -/

/-- Where a goroutine that called `Get(ctx)` stands: the action it performs next. -/
inductive Pc (W C T : Type) where
  | enter (ctx : C)
  | lockOnce (ctx : C)
  | check (ctx : C)
  | lockMu (ctx : C)
  | running (r : Running W C T)
  | unlockMu (pan : Option GoError)
  | setDone (pan : Option GoError)
  | unlockOnce (pan : Option GoError)
  | ret
  | finished (o : Outcome T)

/-- Shared memory and goroutine table: the provider with its lock `mu`, the mutex `m`
inside `p.once`, and the position of every goroutine. -/
structure Conc (W C T : Type) where
  mem : Shared W C T
  onceM : Mutex
  gs : List (Pc W C T)

/-- The step a goroutine at position `pc` takes: the new shared memory, the new state
of the mutex of `p.once` and the new position; `none` when the goroutine waits or has
finished.
* `enter`: `once.Do` loads `done`; if set, `Get` goes on to `return p.result`.
* `lockOnce`: `o.m.Lock()`.
* `check`: `doSlow` loads `done` again; if set, only the deferred `o.m.Unlock()` is left.
* `lockMu`: `p.mu.Lock()` (line 29), then the initializer is selected and called
  (lines 32-37).
* `running`: the initializer returns; the literal panics or stores the value
  (lines 37-41).
* `unlockMu`: the deferred `p.mu.Unlock()` (line 30).
* `setDone`: the deferred `o.done.Store(1)`.
* `unlockOnce`: the deferred `o.m.Unlock()`; a panic then leaves `Get`.
* `ret`: `return p.result` (line 43). -/
def Pc.act (mem : Shared W C T) (onceM : Mutex) :
    Pc W C T → Option (Shared W C T × Mutex × Pc W C T)
  | .enter ctx =>
    if mem.sys.p.once.done then some (mem, onceM, .ret)
    else some (mem, onceM, .lockOnce ctx)
  | .lockOnce ctx =>
    match onceM.Lock with
    | none => none
    | some m1 => some (mem, m1, .check ctx)
  | .check ctx =>
    if mem.sys.p.once.done then some (mem, onceM, .unlockOnce none)
    else some (mem, onceM, .lockMu ctx)
  | .lockMu ctx =>
    match mem.mu.Lock with
    | none => none
    | some mu1 =>
      some ({ mem with mu := mu1 }, onceM,
        .running { slot := mem.sys.p.selected.1, fn := mem.sys.p.selected.2, ctx := ctx })
  | .running r => some ((mem.GetCommit r).2, onceM, .unlockMu (mem.GetCommit r).1)
  | .unlockMu pan => some (mem.GetUnlock, onceM, .setDone pan)
  | .setDone pan =>
    some ({ mem with sys := { mem.sys with p := { mem.sys.p with once := { done := true } } } },
      onceM, .unlockOnce pan)
  | .unlockOnce pan =>
    match pan with
    | some e => some (mem, onceM.Unlock, .finished (Outcome.panicked e))
    | none => some (mem, onceM.Unlock, .ret)
  | .ret => some (mem, onceM, .finished (Outcome.returned mem.sys.p.result))
  | .finished _ => none

/-- One step of goroutine `i`; nothing changes when there is no such goroutine, when it
waits for a mutex or when it has finished. -/
def Conc.step (st : Conc W C T) (i : Nat) : Conc W C T :=
  match st.gs[i]? with
  | none => st
  | some pc =>
    match pc.act st.mem st.onceM with
    | none => st
    | some r => { mem := r.1, onceM := r.2.1, gs := st.gs.set i r.2.2 }

/-- A schedule: the goroutines to step, in order. -/
def Conc.run (st : Conc W C T) (sched : List Nat) : Conc W C T :=
  sched.foldl Conc.step st

/-- The goroutines of the calls `Get(c1), ..., Get(cn)` made on the provider
`Provide(fn)`, none of which has taken a step yet; both mutexes are free. -/
def Conc.start [Inhabited T] (fn : InitFn W C T) (w : W) (l : List (Call C))
    (ctxs : List C) : Conc W C T :=
  { mem := { mu := { locked := false }, sys := Sys.Provide fn w l },
    onceM := { locked := false },
    gs := ctxs.map Pc.enter }

/-- The outcome of a goroutine whose call has ended. -/
def Pc.outcome : Pc W C T → Option (Outcome T)
  | .finished o => some o
  | _ => none

/-- Whether every call has ended. -/
def Conc.allFinished (st : Conc W C T) : Bool :=
  st.gs.all (fun pc => pc.outcome.isSome)

/-- The outcomes of the calls, in the order of the goroutine table. -/
def Conc.outcomes (st : Conc W C T) : List (Option (Outcome T)) :=
  st.gs.map Pc.outcome

/-- Whether a goroutine at this position holds the mutex of `p.once`. -/
def Pc.holdsOnce : Pc W C T → Bool
  | .check _ => true
  | .lockMu _ => true
  | .running _ => true
  | .unlockMu _ => true
  | .setDone _ => true
  | .unlockOnce _ => true
  | _ => false

/-- Whether a goroutine at this position holds `p.mu`. -/
def Pc.holdsMu : Pc W C T → Bool
  | .running _ => true
  | .unlockMu _ => true
  | _ => false

/-- Positions before the return of the initializer. -/
def Pc.early : Pc W C T → Bool
  | .enter _ => true
  | .lockOnce _ => true
  | .check _ => true
  | .lockMu _ => true
  | .running _ => true
  | _ => false

/-- Positions between the check of `doSlow` and the return of the initializer. -/
def Pc.calling : Pc W C T → Bool
  | .lockMu _ => true
  | .running _ => true
  | _ => false

/-- Positions between the return of the initializer and the store of `done`. -/
def Pc.committing : Pc W C T → Bool
  | .unlockMu _ => true
  | .setDone _ => true
  | _ => false

/-- Number of steps a goroutine at this position has left at most. -/
def Pc.rank : Pc W C T → Nat
  | .enter _ => 9
  | .lockOnce _ => 8
  | .check _ => 7
  | .lockMu _ => 6
  | .running _ => 5
  | .unlockMu _ => 4
  | .setDone _ => 3
  | .unlockOnce _ => 2
  | .ret => 1
  | .finished _ => 0

/-- Number of steps the goroutines have left at most, all together. -/
def Conc.fuel (st : Conc W C T) : Nat :=
  (st.gs.map Pc.rank).sum

/-- A schedule for ten goroutines: each takes its first step (all find the once-guard
unset), then goroutine 3 runs to its end, then the others do, one after the other. -/
def tenSchedule : List Nat :=
  [0, 1, 2, 3, 4, 5, 6, 7, 8, 9,
    3, 3, 3, 3, 3, 3, 3, 3,
    0, 0, 0, 0, 1, 1, 1, 1, 2, 2, 2, 2, 4, 4, 4, 4, 5, 5, 5, 5,
    6, 6, 6, 6, 7, 7, 7, 7, 8, 8, 8, 8, 9, 9, 9, 9]

/-- The contexts of ten concurrent calls, one per goroutine. -/
def tenCtxs : List Nat :=
  [0, 1, 2, 3, 4, 5, 6, 7, 8, 9]

/-- The round-robin schedule over `n` goroutines: `k` rounds, each stepping the
goroutines `0, ..., n - 1` in turn. -/
def roundRobin (n : Nat) : Nat → List Nat
  | 0 => []
  | k + 1 => List.range n ++ roundRobin n k

/-- The invariant of a mutex with respect to the positions at which a goroutine holds
it: at most one goroutine holds it, and it is locked exactly when one does. -/
def LockInv (h : Pc W C T → Bool) (b : Bool) (gs : List (Pc W C T)) : Prop :=
  (∀ (i j : Nat) (pi pj : Pc W C T),
      gs[i]? = some pi → gs[j]? = some pj → h pi = true → h pj = true → i = j)
    ∧ (∀ (i : Nat) (pc : Pc W C T), gs[i]? = some pc → h pc = true → b = true)
    ∧ (b = true → ∃ (i : Nat) (pc : Pc W C T), gs[i]? = some pc ∧ h pc = true)

/-- What a position may carry in a run of the calls `Get(c1), ..., Get(cn)` on
`Provide(fn)`: a context of one of the calls, and for a goroutine inside the
initializer the primary `fn`, read from the field `fn`. -/
def pcOk (fn : InitFn W C T) (ctxs : List C) : Pc W C T → Prop
  | .enter c => c ∈ ctxs
  | .lockOnce c => c ∈ ctxs
  | .check c => c ∈ ctxs
  | .lockMu c => c ∈ ctxs
  | .running r => r.slot = Slot.fn ∧ r.fn = fn ∧ r.ctx ∈ ctxs
  | _ => True

/-- What a position may carry once the initializer has returned the value `v` with no
error: no panic is in flight, and a call that has ended has returned `v`. -/
def good (v : T) : Pc W C T → Prop
  | .unlockMu pan => pan = none
  | .setDone pan => pan = none
  | .unlockOnce pan => pan = none
  | .finished o => o = Outcome.returned v
  | _ => True

/-- The state before the initializer has returned: the once-guard is unset, nothing is
logged and every goroutine is at an early position. -/
def EarlyStage (w : W) (l : List (Call C)) (st : Conc W C T) : Prop :=
  st.mem.sys.p.once.done = false ∧ st.mem.sys.calls = l ∧ st.mem.sys.world = w
    ∧ ∀ (i : Nat) (pc : Pc W C T), st.gs[i]? = some pc → pc.early = true

/-- The state after the initializer has returned, having been called with context `c`:
exactly that invocation is logged; no goroutine is about to call the initializer or
inside it; until the once-guard is stored the goroutine that made the call is on its
way to store it; and when the call succeeded its value is in `p.result`, no panic is in
flight and every call that has ended has returned that value. -/
def LateStage (fn : InitFn W C T) (w : W) (l : List (Call C)) (c : C)
    (st : Conc W C T) : Prop :=
  st.mem.sys.calls = l ++ [{ slot := Slot.fn, ctx := c }]
    ∧ st.mem.sys.world = (fn c w).2
    ∧ (∀ (i : Nat) (pc : Pc W C T), st.gs[i]? = some pc → pc.calling = false)
    ∧ (st.mem.sys.p.once.done = false →
        ∃ (i : Nat) (pc : Pc W C T), st.gs[i]? = some pc ∧ pc.committing = true)
    ∧ ((fn c w).1.2 = none →
        st.mem.sys.p.result = (fn c w).1.1
          ∧ ∀ (i : Nat) (pc : Pc W C T), st.gs[i]? = some pc → good (fn c w).1.1 pc)

/-- The invariant of the runs of `Conc.start fn w l ctxs`. -/
structure Inv (fn : InitFn W C T) (w : W) (l : List (Call C)) (ctxs : List C)
    (st : Conc W C T) : Prop where
  fnEq : st.mem.sys.p.fn = fn
  tempEq : st.mem.sys.p.tempFn = none
  len : st.gs.length = ctxs.length
  ctxOk : ∀ (i : Nat) (pc : Pc W C T), st.gs[i]? = some pc → pcOk fn ctxs pc
  once : LockInv Pc.holdsOnce st.onceM.locked st.gs
  mu : LockInv Pc.holdsMu st.mem.mu.locked st.gs
  stage : EarlyStage w l st ∨ ∃ c, c ∈ ctxs ∧ LateStage fn w l c st

/-! ## Basic facts about `Get` -/

theorem Get_done (s : Sys W C T) (ctx : C) (h : s.p.once.done = true) :
    s.Get ctx = (Outcome.returned s.p.result, s) := by
  simp [Sys.Get, Once.Do, h]

theorem Get_ok (s : Sys W C T) (ctx : C) (h : s.p.once.done = false)
    (hok : (s.p.selected.2 ctx s.world).1.2 = none) :
    s.Get ctx =
      (Outcome.returned (s.p.selected.2 ctx s.world).1.1,
        { p := { s.p with result := (s.p.selected.2 ctx s.world).1.1, once := { done := true } },
          world := (s.p.selected.2 ctx s.world).2,
          calls := s.calls ++ [{ slot := s.p.selected.1, ctx := ctx }] }) := by
  simp [Sys.Get, Once.Do, h, Provider.initBody, hok]

theorem Get_err (s : Sys W C T) (ctx : C) (h : s.p.once.done = false) (e : GoError)
    (herr : (s.p.selected.2 ctx s.world).1.2 = some e) :
    s.Get ctx =
      (Outcome.panicked (Errorf "initialization failed: " e),
        { p := { s.p with once := { done := true } },
          world := (s.p.selected.2 ctx s.world).2,
          calls := s.calls ++ [{ slot := s.p.selected.1, ctx := ctx }] }) := by
  simp [Sys.Get, Once.Do, h, Provider.initBody, herr]

theorem GetAll_done (s : Sys W C T) (cs : List C) (h : s.p.once.done = true) :
    s.GetAll cs = (List.replicate cs.length (Outcome.returned s.p.result), s) := by
  induction cs with
  | nil => rfl
  | cons c cs ih => simp [Sys.GetAll, Get_done s c h, ih, List.replicate_succ]

theorem Get_calls_fresh (s : Sys W C T) (ctx : C) (h : s.p.once.done = false) :
    (s.Get ctx).2.calls = s.calls ++ [{ slot := s.p.selected.1, ctx := ctx }] := by
  cases herr : (s.p.selected.2 ctx s.world).1.2 with
  | none => rw [Get_ok s ctx h herr]
  | some e => rw [Get_err s ctx h e herr]

theorem Get_world_fresh (s : Sys W C T) (ctx : C) (h : s.p.once.done = false) :
    (s.Get ctx).2.world = (s.p.selected.2 ctx s.world).2 := by
  cases herr : (s.p.selected.2 ctx s.world).1.2 with
  | none => rw [Get_ok s ctx h herr]
  | some e => rw [Get_err s ctx h e herr]

theorem Get_done_after (s : Sys W C T) (ctx : C) : (s.Get ctx).2.p.once.done = true := by
  cases h : s.p.once.done with
  | true => rw [Get_done s ctx h]; exact h
  | false =>
    cases herr : (s.p.selected.2 ctx s.world).1.2 with
    | none => rw [Get_ok s ctx h herr]
    | some e => rw [Get_err s ctx h e herr]

theorem Get_fn (s : Sys W C T) (ctx : C) : (s.Get ctx).2.p.fn = s.p.fn := by
  cases h : s.p.once.done with
  | true => rw [Get_done s ctx h]
  | false =>
    cases herr : (s.p.selected.2 ctx s.world).1.2 with
    | none => rw [Get_ok s ctx h herr]
    | some e => rw [Get_err s ctx h e herr]

theorem Get_tempFn (s : Sys W C T) (ctx : C) : (s.Get ctx).2.p.tempFn = s.p.tempFn := by
  cases h : s.p.once.done with
  | true => rw [Get_done s ctx h]
  | false =>
    cases herr : (s.p.selected.2 ctx s.world).1.2 with
    | none => rw [Get_ok s ctx h herr]
    | some e => rw [Get_err s ctx h e herr]

theorem GetAll_fn_tempFn (s : Sys W C T) (cs : List C) :
    (s.GetAll cs).2.p.fn = s.p.fn ∧ (s.GetAll cs).2.p.tempFn = s.p.tempFn := by
  induction cs generalizing s with
  | nil => exact ⟨rfl, rfl⟩
  | cons c cs ih =>
    have h := ih (s.Get c).2
    simp only [Sys.GetAll]
    exact ⟨h.1.trans (Get_fn s c), h.2.trans (Get_tempFn s c)⟩

theorem countSlot_append (sl : Slot) (l1 l2 : List (Call C)) :
    countSlot sl (l1 ++ l2) = countSlot sl l1 + countSlot sl l2 := by
  simp [countSlot, List.filter_append]

/-! ## Memoization, override and reset -/

/-- C1 (memoization).  From a state whose once-guard is unset and whose selected
initializer succeeds on `ctx1`, the calls `Get(ctx1), Get(c2), ..., Get(cn)` (any `n ≥ 1`,
any contexts) all return the value the selected initializer produced on `ctx1`; the log
grows by exactly one invocation, made with `ctx1`, and the captured state is the one
that single invocation left; the state after all `n` calls is the state after the first
one, and any further `Get` returns the same value without changing the state. -/
theorem C1_memoization (s : Sys W C T) (ctx1 : C) (rest : List C)
    (hfresh : s.p.once.done = false)
    (hok : (s.p.selected.2 ctx1 s.world).1.2 = none) :
    (s.GetAll (ctx1 :: rest)).1
        = List.replicate (rest.length + 1)
            (Outcome.returned (s.p.selected.2 ctx1 s.world).1.1)
      ∧ (s.GetAll (ctx1 :: rest)).2.calls
          = s.calls ++ [{ slot := s.p.selected.1, ctx := ctx1 }]
      ∧ (s.GetAll (ctx1 :: rest)).2.world = (s.p.selected.2 ctx1 s.world).2
      ∧ (s.GetAll (ctx1 :: rest)).2 = (s.Get ctx1).2
      ∧ ∀ c : C, (s.Get ctx1).2.Get c
          = (Outcome.returned (s.p.selected.2 ctx1 s.world).1.1, (s.Get ctx1).2) := by
  have h1 := Get_ok s ctx1 hfresh hok
  have hd : (s.Get ctx1).2.p.once.done = true := Get_done_after s ctx1
  have hr : (s.Get ctx1).2.p.result = (s.p.selected.2 ctx1 s.world).1.1 := by rw [h1]
  have hall := GetAll_done (s.Get ctx1).2 rest hd
  have e1 : (s.GetAll (ctx1 :: rest)).1
      = (s.Get ctx1).1 :: ((s.Get ctx1).2.GetAll rest).1 := rfl
  have e2 : (s.GetAll (ctx1 :: rest)).2 = ((s.Get ctx1).2.GetAll rest).2 := rfl
  refine ⟨?_, ?_, ?_, ?_, ?_⟩
  · rw [e1, hall, hr, List.replicate_succ]
    rw [h1]
  · rw [e2, hall]
    exact Get_calls_fresh s ctx1 hfresh
  · rw [e2, hall]
    exact Get_world_fresh s ctx1 hfresh
  · rw [e2, hall]
  · intro c
    rw [Get_done (s.Get ctx1).2 c hd, hr]

/-- Witness for C1: three calls of `Get` on the fresh `realSys`. -/
theorem C1_memoization_witness :
    realSys.p.once.done = false
      ∧ (realSys.GetAll [1, 2, 3]).1
          = [Outcome.returned Client.RealClient, Outcome.returned Client.RealClient,
              Outcome.returned Client.RealClient]
      ∧ (realSys.GetAll [1, 2, 3]).2.calls = [{ slot := Slot.fn, ctx := 1 }]
      ∧ (realSys.GetAll [1, 2, 3]).2.world = 1 :=
  have h := C1_memoization realSys 1 [2, 3] rfl rfl
  ⟨rfl, h.1, h.2.1, h.2.2.1⟩

/-- C2 (override takes effect).  From every state, after `Temporarily(fn2)` with a
non-nil `fn2` that succeeds on `ctx`, the next `Get(ctx)` makes exactly one invocation,
of the function in the field `tempFn`, which is `fn2`, and none of the primary: it
returns the value of `fn2` and leaves the captured state `fn2` produced.  `Get` never
changes the override: after any number of calls the selected initializer is still
`fn2`, and those calls all return the value of `fn2`; `Reset` makes the primary the
selected one again. -/
theorem C2_override_takes_effect [Inhabited T] (s : Sys W C T) (fn2 : InitFn W C T)
    (ctx : C) (hok : (fn2 ctx s.world).1.2 = none) :
    (s.Temporarily (some fn2)).p.selected = (Slot.tempFn, fn2)
      ∧ ((s.Temporarily (some fn2)).Get ctx).1 = Outcome.returned (fn2 ctx s.world).1.1
      ∧ ((s.Temporarily (some fn2)).Get ctx).2.calls
          = s.calls ++ [{ slot := Slot.tempFn, ctx := ctx }]
      ∧ countSlot Slot.fn ((s.Temporarily (some fn2)).Get ctx).2.calls
          = countSlot Slot.fn s.calls
      ∧ ((s.Temporarily (some fn2)).Get ctx).2.world = (fn2 ctx s.world).2
      ∧ (∀ cs : List C,
          ((s.Temporarily (some fn2)).GetAll cs).2.p.selected = (Slot.tempFn, fn2))
      ∧ (∀ cs : List C,
          ((s.Temporarily (some fn2)).GetAll (ctx :: cs)).1
            = List.replicate (cs.length + 1) (Outcome.returned (fn2 ctx s.world).1.1))
      ∧ (∀ cs : List C,
          ((s.Temporarily (some fn2)).GetAll cs).2.Reset.p.selected = (Slot.fn, s.p.fn)) := by
  have hsel : (s.Temporarily (some fn2)).p.selected = (Slot.tempFn, fn2) := rfl
  have hfresh : (s.Temporarily (some fn2)).p.once.done = false := rfl
  have hw : (s.Temporarily (some fn2)).world = s.world := rfl
  have hc : (s.Temporarily (some fn2)).calls = s.calls := rfl
  have hok2 : ((s.Temporarily (some fn2)).p.selected.2 ctx
      (s.Temporarily (some fn2)).world).1.2 = none := by rw [hsel, hw]; exact hok
  have hcalls := Get_calls_fresh (s.Temporarily (some fn2)) ctx hfresh
  rw [hsel, hc] at hcalls
  have hget := Get_ok _ ctx hfresh hok2
  refine ⟨hsel, ?_, hcalls, ?_, ?_, ?_, ?_, ?_⟩
  · rw [hget]
    rfl
  · rw [hcalls, countSlot_append]
    simp [countSlot]
  · rw [Get_world_fresh _ ctx hfresh]
    rfl
  · intro cs
    have h := GetAll_fn_tempFn (s.Temporarily (some fn2)) cs
    have ht : ((s.Temporarily (some fn2)).GetAll cs).2.p.tempFn = some fn2 := h.2
    simp [Provider.selected, ht]
  · intro cs
    have hd := Get_done_after (s.Temporarily (some fn2)) ctx
    have hall := GetAll_done _ cs hd
    have e1 : ((s.Temporarily (some fn2)).GetAll (ctx :: cs)).1
        = ((s.Temporarily (some fn2)).Get ctx).1
            :: (((s.Temporarily (some fn2)).Get ctx).2.GetAll cs).1 := rfl
    rw [e1, hall, List.replicate_succ, hget]
    rfl
  · intro cs
    have h := GetAll_fn_tempFn (s.Temporarily (some fn2)) cs
    have hf : ((s.Temporarily (some fn2)).GetAll cs).2.p.fn = s.p.fn := h.1
    simp [Provider.selected, Sys.Reset, Provider.Reset, hf]

/-- Witness for C2: the scenario of `TestProvider_Temporarily`, on a provider that has
already cached the value of its primary initializer. -/
theorem C2_override_takes_effect_witness :
    (fakeInit 7 (realSys.Get 1).2.world).1.2 = none
      ∧ (((realSys.Get 1).2.Temporarily (some fakeInit)).Get 7).1
          = Outcome.returned Client.FakeClient
      ∧ (((realSys.Get 1).2.Temporarily (some fakeInit)).Get 7).2.calls
          = [{ slot := Slot.fn, ctx := 1 }, { slot := Slot.tempFn, ctx := 7 }] :=
  have h := C2_override_takes_effect (realSys.Get 1).2 fakeInit 7 rfl
  ⟨rfl, h.2.1, h.2.2.1⟩

/-- The example scenario of the specification, run on the embedding: `Get` twice gives
the primary value with one invocation; after `Temporarily` the override value; after
`Reset` the primary value again, the primary having been invoked twice in all. -/
theorem example_scenario :
    (realSys.GetAll [0, 0]).1
        = [Outcome.returned Client.RealClient, Outcome.returned Client.RealClient]
      ∧ countSlot Slot.fn (realSys.GetAll [0, 0]).2.calls = 1
      ∧ (((realSys.GetAll [0, 0]).2.Temporarily (some fakeInit)).Get 0).1
          = Outcome.returned Client.FakeClient
      ∧ ((((realSys.GetAll [0, 0]).2.Temporarily (some fakeInit)).Get 0).2.Reset.Get 0).1
          = Outcome.returned Client.RealClient
      ∧ countSlot Slot.fn
          ((((realSys.GetAll [0, 0]).2.Temporarily (some fakeInit)).Get 0).2.Reset.Get 0).2.calls
          = 2 := by
  decide

/-- C3 (reset restores the primary and invalidates the cache).  From every state,
`Reset` followed by `Get(ctx)` makes exactly one invocation, of the primary initializer
with `ctx`: the count of primary invocations grows by one and the count of override
invocations is unchanged.  The call delivers the result of the primary on `ctx`: the
value when the primary succeeds, a panic wrapping its error when it fails. -/
theorem C3_reset_restores_primary [Inhabited T] (s : Sys W C T) (ctx : C) :
    (s.Reset.Get ctx).2.calls = s.calls ++ [{ slot := Slot.fn, ctx := ctx }]
      ∧ countSlot Slot.fn (s.Reset.Get ctx).2.calls = countSlot Slot.fn s.calls + 1
      ∧ countSlot Slot.tempFn (s.Reset.Get ctx).2.calls = countSlot Slot.tempFn s.calls
      ∧ (s.Reset.Get ctx).2.world = (s.p.fn ctx s.world).2
      ∧ (s.Reset.Get ctx).1
          = (match (s.p.fn ctx s.world).1.2 with
              | none => Outcome.returned (s.p.fn ctx s.world).1.1
              | some e => Outcome.panicked (Errorf "initialization failed: " e)) := by
  have hfresh : s.Reset.p.once.done = false := rfl
  have hcalls := Get_calls_fresh s.Reset ctx hfresh
  have hcalls2 : (s.Reset.Get ctx).2.calls = s.calls ++ [{ slot := Slot.fn, ctx := ctx }] :=
    hcalls
  refine ⟨hcalls2, ?_, ?_, ?_, ?_⟩
  · rw [hcalls2, countSlot_append]
    simp [countSlot]
  · rw [hcalls2, countSlot_append]
    simp [countSlot]
  · exact Get_world_fresh s.Reset ctx hfresh
  · cases herr : (s.p.fn ctx s.world).1.2 with
    | none =>
      have hok : (s.Reset.p.selected.2 ctx s.Reset.world).1.2 = none := herr
      rw [Get_ok s.Reset ctx hfresh hok]
      rfl
    | some e =>
      have he : (s.Reset.p.selected.2 ctx s.Reset.world).1.2 = some e := herr
      rw [Get_err s.Reset ctx hfresh e he]

/-! ## Initializer errors -/

/-- C4 (fatal on initializer error).  When the once-guard is unset, `Get(ctx)` panics
if and only if the selected initializer returns an error on `ctx`.  The value it panics
with is then an error whose message is "initialization failed: " followed by the
message of the cause and whose `Unwrap` is the cause, and `Get` returns no value. -/
theorem C4_fatal_on_initializer_error (s : Sys W C T) (ctx : C)
    (hfresh : s.p.once.done = false) :
    ((∃ e, (s.Get ctx).1 = Outcome.panicked e)
        ↔ ∃ cause, (s.p.selected.2 ctx s.world).1.2 = some cause)
      ∧ (∀ cause, (s.p.selected.2 ctx s.world).1.2 = some cause →
          ∃ e, (s.Get ctx).1 = Outcome.panicked e
            ∧ e.Error = "initialization failed: " ++ cause.Error
            ∧ e.Unwrap = some cause
            ∧ ∀ v, (s.Get ctx).1 ≠ Outcome.returned v) := by
  have hforward : ∀ cause, (s.p.selected.2 ctx s.world).1.2 = some cause →
      (s.Get ctx).1 = Outcome.panicked (Errorf "initialization failed: " cause) := by
    intro cause hc
    rw [Get_err s ctx hfresh cause hc]
  refine ⟨⟨?_, ?_⟩, ?_⟩
  · rintro ⟨e, he⟩
    cases herr : (s.p.selected.2 ctx s.world).1.2 with
    | none =>
      rw [Get_ok s ctx hfresh herr] at he
      cases he
    | some cause => exact ⟨cause, rfl⟩
  · rintro ⟨cause, hc⟩
    exact ⟨_, hforward cause hc⟩
  · intro cause hc
    refine ⟨Errorf "initialization failed: " cause, hforward cause hc, rfl, rfl, ?_⟩
    intro v hv
    rw [hforward cause hc] at hv
    cases hv

/-- Witness for C4: the first `Get` of `TestProvider_ErrorHandling` panics with the
wrapped error. -/
theorem C4_fatal_on_initializer_error_witness :
    failingSys.p.once.done = false
      ∧ ∃ e, (failingSys.Get 1).1 = Outcome.panicked e
          ∧ e.Error = "initialization failed: " ++ "failed to initialize"
          ∧ e.Unwrap = some (GoError.errorString "failed to initialize")
          ∧ ∀ v, (failingSys.Get 1).1 ≠ Outcome.returned v :=
  ⟨rfl, (C4_fatal_on_initializer_error failingSys 1 rfl).2
    (GoError.errorString "failed to initialize") rfl⟩

/-- C5, evaluation at the failing input.  On `Provide(failingInit)`, whose initializer
fails on every context, the first `Get` panics, but the second `Get`, made with no
`Reset` or `Temporarily` in between, returns normally: it yields the zero value `nil`
and invokes no initializer (one logged invocation, counter at one). -/
theorem C5_second_Get_returns_silently :
    (∀ ctx n, (failingInit ctx n).1.2 ≠ none)
      ∧ (failingSys.Get 1).1
          = Outcome.panicked (GoError.wrapError "initialization failed: failed to initialize"
              (GoError.errorString "failed to initialize"))
      ∧ ((failingSys.Get 1).2.Get 2).1 = Outcome.returned Client.nil
      ∧ ((failingSys.Get 1).2.Get 2).2.calls = [{ slot := Slot.fn, ctx := 1 }]
      ∧ ((failingSys.Get 1).2.Get 2).2.world = 1 := by
  refine ⟨?_, by decide, by decide, by decide, by decide⟩
  intro ctx n h
  cases h

/-! ## Postconditions of `Reset`, `Temporarily`, `Get` and `Provide` -/

/-- C7 (postcondition of `Reset`).  From every state, `Reset` unsets the once-guard,
stores the zero value of `T`, clears the override and keeps the primary initializer, so
the provider equals `Provide` of its primary initializer; the captured state and the
log are untouched; and `Reset` is idempotent. -/
theorem C7_reset_postcondition [Inhabited T] (s : Sys W C T) :
    s.Reset.p.once.done = false
      ∧ s.Reset.p.result = default
      ∧ s.Reset.p.tempFn = none
      ∧ s.Reset.p.fn = s.p.fn
      ∧ s.Reset.p = Provide s.p.fn
      ∧ s.Reset = { p := Provide s.p.fn, world := s.world, calls := s.calls }
      ∧ s.Reset.Reset = s.Reset :=
  ⟨rfl, rfl, rfl, rfl, rfl, rfl, rfl⟩

/-- C8 (postcondition and frame of `Temporarily`).  From every state, `Temporarily(f)`
sets the override to `f` and unsets the once-guard, and leaves the primary initializer,
the stored value, the captured state and the log as they were; a second override
replaces the first: `Temporarily(f1); Temporarily(f2)` ends in the state of
`Temporarily(f2)` alone. -/
theorem C8_temporarily_postcondition (s : Sys W C T) (f1 f2 : Option (InitFn W C T)) :
    (s.Temporarily f1).p.tempFn = f1
      ∧ (s.Temporarily f1).p.once.done = false
      ∧ (s.Temporarily f1).p.fn = s.p.fn
      ∧ (s.Temporarily f1).p.result = s.p.result
      ∧ (s.Temporarily f1).world = s.world
      ∧ (s.Temporarily f1).calls = s.calls
      ∧ (s.Temporarily f1).Temporarily f2 = s.Temporarily f2 :=
  ⟨rfl, rfl, rfl, rfl, rfl, rfl, rfl⟩

/-- C9 (commit step of `Get`).  When the once-guard is unset, `Get(ctx)` selects the
override if one is set and the primary otherwise, invokes the selected function once,
with the `ctx` it was given, and, when that returns `(v, nil)`, returns `v`, stores `v`
as the cached value and sets the once-guard, leaving the primary initializer and the
override as they were. -/
theorem C9_get_commit (s : Sys W C T) (ctx : C) (hfresh : s.p.once.done = false) :
    (∀ g, s.p.tempFn = some g → s.p.selected = (Slot.tempFn, g))
      ∧ (s.p.tempFn = none → s.p.selected = (Slot.fn, s.p.fn))
      ∧ (s.Get ctx).2.calls = s.calls ++ [{ slot := s.p.selected.1, ctx := ctx }]
      ∧ (s.Get ctx).2.world = (s.p.selected.2 ctx s.world).2
      ∧ (∀ v, (s.p.selected.2 ctx s.world).1 = (v, none) →
          (s.Get ctx).1 = Outcome.returned v
            ∧ (s.Get ctx).2.p.result = v
            ∧ (s.Get ctx).2.p.once.done = true
            ∧ (s.Get ctx).2.p.fn = s.p.fn
            ∧ (s.Get ctx).2.p.tempFn = s.p.tempFn) := by
  refine ⟨?_, ?_, Get_calls_fresh s ctx hfresh, Get_world_fresh s ctx hfresh, ?_⟩
  · intro g hg
    simp [Provider.selected, hg]
  · intro hn
    simp [Provider.selected, hn]
  · intro v hv
    have hok : (s.p.selected.2 ctx s.world).1.2 = none := by rw [hv]
    have hval : (s.p.selected.2 ctx s.world).1.1 = v := by rw [hv]
    rw [Get_ok s ctx hfresh hok, hval]
    exact ⟨rfl, rfl, rfl, rfl, rfl⟩

/-- Witness for C9: on a fresh provider with the override `fakeInit` installed,
`Get(5)` runs the override with context 5 and commits its value. -/
theorem C9_get_commit_witness :
    (realSys.Temporarily (some fakeInit)).p.once.done = false
      ∧ ((realSys.Temporarily (some fakeInit)).Get 5).2.calls
          = [{ slot := Slot.tempFn, ctx := 5 }]
      ∧ ((realSys.Temporarily (some fakeInit)).Get 5).1 = Outcome.returned Client.FakeClient
      ∧ ((realSys.Temporarily (some fakeInit)).Get 5).2.p.result = Client.FakeClient
      ∧ ((realSys.Temporarily (some fakeInit)).Get 5).2.p.once.done = true :=
  have h := C9_get_commit (realSys.Temporarily (some fakeInit)) 5 rfl
  have h5 := h.2.2.2.2 Client.FakeClient rfl
  ⟨rfl, h.2.2.1, h5.1, h5.2.1, h5.2.2.1⟩

/-- C10 (lazy construction).  `Provide(fn)` invokes no initializer: the captured state
and the log are after the call what they were before it.  The provider it returns
stores `fn` as the primary initializer, has no override, holds the zero value of `T`
and has its once-guard unset, so the first invocation of `fn` is the one made by the
first `Get`, with the context of that call. -/
theorem C10_lazy_construction [Inhabited T] (fn : InitFn W C T) (w : W)
    (l : List (Call C)) :
    (Sys.Provide fn w l).calls = l
      ∧ (Sys.Provide fn w l).world = w
      ∧ (Sys.Provide fn w l).p = Provide fn
      ∧ (Provide fn).fn = fn
      ∧ (Provide fn).tempFn = none
      ∧ (Provide fn).result = default
      ∧ (Provide fn).once.done = false
      ∧ ∀ ctx : C,
          ((Sys.Provide fn w l).Get ctx).2.calls = l ++ [{ slot := Slot.fn, ctx := ctx }]
            ∧ ((Sys.Provide fn w l).Get ctx).2.world = (fn ctx w).2 := by
  refine ⟨rfl, rfl, rfl, rfl, rfl, rfl, rfl, ?_⟩
  intro ctx
  exact ⟨Get_calls_fresh _ ctx rfl, Get_world_fresh _ ctx rfl⟩

/-! ## Sequences of calls: basic facts -/

theorem run_append [Inhabited T] (s : Sys W C T) (a b : List (Op W C T)) :
    s.run (a ++ b) = ((s.run a).1 ++ ((s.run a).2.run b).1, ((s.run a).2.run b).2) := by
  induction a generalizing s with
  | nil => simp [Sys.run]
  | cons op a ih => simp [Sys.run, ih, List.append_assoc]

theorem run_gets [Inhabited T] (s : Sys W C T) (cs : List C) :
    s.run (gets cs) = s.GetAll cs := by
  induction cs generalizing s with
  | nil => rfl
  | cons c cs ih =>
    have h := ih (s.Get c).2
    simp only [gets] at h
    simp [gets, Sys.run, Sys.step, Sys.GetAll, h]

theorem step_boundary_fresh [Inhabited T] (s : Sys W C T) (op : Op W C T)
    (hop : op.isGet = false) : (s.step op).2.p.once.done = false := by
  cases op with
  | Get c => simp [Op.isGet] at hop
  | Reset => rfl
  | Temporarily f => rfl

theorem run_boundary_fresh [Inhabited T] (s : Sys W C T) (pre0 : List (Op W C T))
    (op : Op W C T) (hop : op.isGet = false) :
    (s.run (pre0 ++ [op])).2.p.once.done = false := by
  rw [run_append]
  exact step_boundary_fresh _ op hop

theorem GetAll_calls_fresh (s : Sys W C T) (c : C) (cs : List C)
    (h : s.p.once.done = false) :
    (s.GetAll (c :: cs)).2.calls = s.calls ++ [{ slot := s.p.selected.1, ctx := c }] := by
  have e2 : (s.GetAll (c :: cs)).2 = ((s.Get c).2.GetAll cs).2 := rfl
  rw [e2, GetAll_done _ cs (Get_done_after s c)]
  exact Get_calls_fresh s c h

theorem GetAll_calls_le (s : Sys W C T) (cs : List C) :
    (s.GetAll cs).2.calls.length ≤ s.calls.length + 1 := by
  cases cs with
  | nil => simp [Sys.GetAll]
  | cons c cs =>
    cases h : s.p.once.done with
    | true => rw [GetAll_done s _ h]; simp
    | false => rw [GetAll_calls_fresh s c cs h]; simp


/-- C11 (exactly once per epoch, sequential).  Take a provider made by `Provide` and a
finite sequence of `Get`, `Reset` and `Temporarily` calls whose initializers may succeed
or fail.  Let `pre` be an initial part of it that is empty or ends with a `Reset` or a
`Temporarily`, and let `Get(c1), ..., Get(cn)` be calls that follow it with no `Reset`
or `Temporarily` among them.  These calls make no initializer invocation when `n = 0`
and exactly one when `n ≥ 1`: the invocation of the initializer selected at the start
of the stretch, with the context of its first `Get`.  So an initializer that failed is
not run again by a later `Get` of the same stretch.  After any initial part whatever, a
run of `Get` calls makes at most one invocation. -/
theorem C11_once_per_epoch [Inhabited T] (fn : InitFn W C T) (w : W) (l : List (Call C))
    (pre : List (Op W C T)) (cs : List C)
    (hpre : pre = [] ∨ ∃ pre0 op, pre = pre0 ++ [op] ∧ op.isGet = false) :
    ((Sys.Provide fn w l).run (pre ++ gets cs)).2.calls
        = ((Sys.Provide fn w l).run pre).2.calls
          ++ (match cs with
              | [] => []
              | c :: _ =>
                [{ slot := ((Sys.Provide fn w l).run pre).2.p.selected.1, ctx := c }])
      ∧ ((Sys.Provide fn w l).run (pre ++ gets cs)).2.calls.length
          = ((Sys.Provide fn w l).run pre).2.calls.length + (if cs.isEmpty then 0 else 1)
      ∧ ∀ (ops : List (Op W C T)) (ds : List C),
          ((Sys.Provide fn w l).run (ops ++ gets ds)).2.calls.length
            ≤ ((Sys.Provide fn w l).run ops).2.calls.length + 1 := by
  have hfresh : ((Sys.Provide fn w l).run pre).2.p.once.done = false := by
    rcases hpre with h | ⟨pre0, op, h, hop⟩
    · subst h; rfl
    · subst h; exact run_boundary_fresh _ pre0 op hop
  have hmain : ((Sys.Provide fn w l).run (pre ++ gets cs)).2.calls
        = ((Sys.Provide fn w l).run pre).2.calls
          ++ (match cs with
              | [] => []
              | c :: _ =>
                [{ slot := ((Sys.Provide fn w l).run pre).2.p.selected.1, ctx := c }]) := by
    rw [run_append, run_gets]
    cases cs with
    | nil => simp [Sys.GetAll]
    | cons c cs => exact GetAll_calls_fresh _ c cs hfresh
  refine ⟨hmain, ?_, ?_⟩
  · rw [hmain]
    cases cs with
    | nil => simp
    | cons c cs => simp
  · intro ops ds
    rw [run_append, run_gets]
    exact GetAll_calls_le _ ds

/-- Witness for C11: after `Get(1); Temporarily(failingInit)` the calls `Get(2); Get(3)`
add one invocation, of the failing override with context 2. -/
theorem C11_once_per_epoch_witness :
    (∃ pre0 op, [Op.Get 1, Op.Temporarily (some failingInit)] = pre0 ++ [op]
        ∧ op.isGet = false)
      ∧ (realSys.run ([Op.Get 1, Op.Temporarily (some failingInit)] ++ gets [2, 3])).2.calls
          = [{ slot := Slot.fn, ctx := 1 }, { slot := Slot.tempFn, ctx := 2 }] :=
  have hb : ∃ pre0 op, [Op.Get 1, Op.Temporarily (some failingInit)] = pre0 ++ [op]
      ∧ op.isGet = false := ⟨[Op.Get 1], Op.Temporarily (some failingInit), rfl, rfl⟩
  ⟨hb, (C11_once_per_epoch realInit 0 [] [Op.Get 1, Op.Temporarily (some failingInit)]
    [2, 3] (Or.inr hb)).1⟩

/-! ## Simulation by the epoch reference model -/

theorem selected_eq_getD (p : Provider W C T) : p.selected.2 = p.tempFn.getD p.fn := by
  unfold Provider.selected
  cases p.tempFn <;> rfl

theorem invocationsSucceed_append [Inhabited T] (s : Sys W C T) (a b : List (Op W C T)) :
    invocationsSucceed s (a ++ b)
      = (invocationsSucceed s a && invocationsSucceed (s.run a).2 b) := by
  induction a generalizing s with
  | nil => simp [invocationsSucceed, Sys.run]
  | cons op a ih => simp [invocationsSucceed, Sys.run, ih, Bool.and_assoc]

theorem invocationsSucceed_head [Inhabited T] (s : Sys W C T) (c : C)
    (ops : List (Op W C T)) (h : invocationsSucceed s (Op.Get c :: ops) = true)
    (hfresh : s.p.once.done = false) : (s.p.selected.2 c s.world).1.2 = none := by
  simp [invocationsSucceed, hfresh] at h
  exact h.1

theorem Sim_step [Inhabited T] (s : Sys W C T) (e : EpochRef W C T) (op : Op W C T)
    (hsim : Sim s e) (hop : invocationsSucceed s [op] = true) :
    (s.step op).1 = (e.step op).1.map Outcome.returned ∧ Sim (s.step op).2 (e.step op).2 := by
  obtain ⟨hfn, htemp, hw, hval⟩ := hsim
  cases op with
  | Reset => exact ⟨rfl, hfn, rfl, hw, rfl⟩
  | Temporarily g => exact ⟨rfl, hfn, rfl, hw, rfl⟩
  | Get c =>
    cases hv : e.value with
    | some v =>
      rw [hv] at hval
      have hstep : e.step (Op.Get c) = (some v, e) := by simp [EpochRef.step, hv]
      have hget : s.Get c = (Outcome.returned s.p.result, s) := Get_done s c hval.1
      simp only [Sys.step, hget, hstep, Option.map]
      refine ⟨by rw [hval.2], hfn, htemp, hw, ?_⟩
      rw [hv]
      exact hval
    | none =>
      rw [hv] at hval
      have hsel : s.p.selected.2 = e.override.getD e.primary := by
        rw [selected_eq_getD, htemp, hfn]
      have hok : (s.p.selected.2 c s.world).1.2 = none :=
        invocationsSucceed_head s c [] hop hval
      have hget := Get_ok s c hval hok
      have hstep : e.step (Op.Get c)
          = (some ((e.override.getD e.primary) c e.world).1.1,
              { e with value := some ((e.override.getD e.primary) c e.world).1.1,
                       world := ((e.override.getD e.primary) c e.world).2 }) := by
        simp [EpochRef.step, hv]
      simp only [Sys.step, hget, hstep, Option.map]
      rw [hsel, hw]
      exact ⟨rfl, hfn, htemp, rfl, rfl, rfl⟩

theorem EpochRef_step_primary (e : EpochRef W C T) (op : Op W C T) :
    (e.step op).2.primary = e.primary := by
  cases op with
  | Reset => rfl
  | Temporarily g => rfl
  | Get c =>
    cases hv : e.value with
    | some v => simp [EpochRef.step, hv]
    | none => simp [EpochRef.step, hv]

theorem Sim_run [Inhabited T] (ops : List (Op W C T)) (s : Sys W C T) (e : EpochRef W C T)
    (hsim : Sim s e) (hok : invocationsSucceed s ops = true) :
    (s.run ops).1 = (e.run ops).1.map Outcome.returned ∧ Sim (s.run ops).2 (e.run ops).2 := by
  induction ops generalizing s e with
  | nil => exact ⟨rfl, hsim⟩
  | cons op ops ih =>
    have hsplit := invocationsSucceed_append s [op] ops
    simp only [List.singleton_append] at hsplit
    rw [hsplit, Bool.and_eq_true] at hok
    have hstep := Sim_step s e op hsim hok.1
    have hrest := ih (s.step op).2 (e.step op).2 hstep.2 (by
      have h2 := hok.2
      simp only [Sys.run] at h2
      exact h2)
    refine ⟨?_, hrest.2⟩
    simp only [Sys.run, EpochRef.run, List.map_append]
    rw [hrest.1, hstep.1]
    cases (e.step op).1 <;> rfl

theorem Sim_start [Inhabited T] (fn : InitFn W C T) (w : W) (l : List (Call C)) :
    Sim (Sys.Provide fn w l) (EpochRef.start fn w) :=
  ⟨rfl, rfl, rfl, rfl⟩

theorem EpochRef_run_primary (ops : List (Op W C T)) (e : EpochRef W C T) :
    (e.run ops).2.primary = e.primary := by
  induction ops generalizing e with
  | nil => rfl
  | cons op ops ih =>
    simp only [EpochRef.run]
    rw [ih, EpochRef_step_primary]

theorem invocationsSucceed_iff_no_panic [Inhabited T] (ops : List (Op W C T))
    (s : Sys W C T) :
    invocationsSucceed s ops = true ↔ ∀ e, Outcome.panicked e ∉ (s.run ops).1 := by
  induction ops generalizing s with
  | nil => simp [invocationsSucceed, Sys.run]
  | cons op ops ih =>
    cases op with
    | Reset => simp [invocationsSucceed, Sys.run, Sys.step, ih]
    | Temporarily g => simp [invocationsSucceed, Sys.run, Sys.step, ih]
    | Get c =>
      cases hd : s.p.once.done with
      | true =>
        simp [invocationsSucceed, Sys.run, Sys.step, ih, hd, Get_done s c hd]
      | false =>
        cases herr : (s.p.selected.2 c s.world).1.2 with
        | none =>
          simp [invocationsSucceed, Sys.run, Sys.step, ih, hd, herr, Get_ok s c hd herr]
        | some e =>
          simp [invocationsSucceed, Sys.run, Sys.step, hd, herr, Get_err s c hd e herr]
          exact ⟨Errorf "initialization failed: " e, fun h => absurd rfl h⟩

/-- C12 (agreement with the epoch reference model).  Take a provider made by `Provide`
and a finite sequence of `Get`, `Reset` and `Temporarily` calls in which every
initializer succeeds, that is, every initializer invocation the sequence makes returns
no error.  The outcomes of its `Get` calls are exactly the values the reference model
yields, each returned normally: no `Get` panics.  For every stretch
`Get(c), Get(c2), ..., Get(cn)` that starts an epoch (it comes first or right after a
`Reset` or `Temporarily`), every call of the stretch returns the same value: that of
the initializer of the epoch (the function of the most recent `Temporarily` if no
`Reset` came after it, otherwise the primary) applied to `c`, the context of the first
`Get` of the epoch. -/
theorem C12_epoch_model_agreement [Inhabited T] (fn : InitFn W C T) (w : W)
    (l : List (Call C)) (ops : List (Op W C T))
    (hok : invocationsSucceed (Sys.Provide fn w l) ops = true) :
    ((Sys.Provide fn w l).run ops).1
        = ((EpochRef.start fn w).run ops).1.map Outcome.returned
      ∧ (∀ e, Outcome.panicked e ∉ ((Sys.Provide fn w l).run ops).1)
      ∧ ∀ (pre : List (Op W C T)) (c : C) (cs : List C) (post : List (Op W C T)),
          ops = pre ++ gets (c :: cs) ++ post →
          (pre = [] ∨ ∃ pre0 op, pre = pre0 ++ [op] ∧ op.isGet = false) →
          ((Sys.Provide fn w l).run (pre ++ gets (c :: cs))).1
            = ((Sys.Provide fn w l).run pre).1
              ++ List.replicate (cs.length + 1)
                  (Outcome.returned
                    ((((EpochRef.start fn w).run pre).2.override.getD fn) c
                      ((EpochRef.start fn w).run pre).2.world).1.1) := by
  have hall := Sim_run ops (Sys.Provide fn w l) (EpochRef.start fn w)
    (Sim_start fn w l) hok
  refine ⟨hall.1, ?_, ?_⟩
  · intro e he
    rw [hall.1] at he
    simp at he
  · intro pre c cs post hops hpre
    have hsplit : invocationsSucceed (Sys.Provide fn w l) pre = true
        ∧ invocationsSucceed ((Sys.Provide fn w l).run pre).2
            (Op.Get c :: (gets cs ++ post)) = true := by
      have h := hok
      rw [hops, List.append_assoc, invocationsSucceed_append, Bool.and_eq_true] at h
      exact h
    have hsim := (Sim_run pre (Sys.Provide fn w l) (EpochRef.start fn w)
      (Sim_start fn w l) hsplit.1).2
    have hfresh : ((Sys.Provide fn w l).run pre).2.p.once.done = false := by
      rcases hpre with h | ⟨pre0, op, h, hop⟩
      · subst h; rfl
      · subst h; exact run_boundary_fresh _ pre0 op hop
    obtain ⟨hf1, htemp, hw, -⟩ := hsim
    have hprimary : ((EpochRef.start fn w).run pre).2.primary = fn :=
      EpochRef_run_primary pre _
    have hsel : ((Sys.Provide fn w l).run pre).2.p.selected.2
        = ((EpochRef.start fn w).run pre).2.override.getD fn := by
      rw [selected_eq_getD, htemp, hf1, hprimary]
    have hokc : (((Sys.Provide fn w l).run pre).2.p.selected.2 c
        ((Sys.Provide fn w l).run pre).2.world).1.2 = none :=
      invocationsSucceed_head _ c _ hsplit.2 hfresh
    have hget := Get_ok _ c hfresh hokc
    have hd := Get_done_after ((Sys.Provide fn w l).run pre).2 c
    have hrest := GetAll_done _ cs hd
    have e1 : (((Sys.Provide fn w l).run pre).2.GetAll (c :: cs)).1
        = (((Sys.Provide fn w l).run pre).2.Get c).1
            :: ((((Sys.Provide fn w l).run pre).2.Get c).2.GetAll cs).1 := rfl
    rw [run_append, run_gets]
    simp only
    rw [e1, hrest, List.replicate_succ, hget]
    simp only
    rw [hsel, hw]

/-- Witness for C12: `Get(1), Get(2), Temporarily(fakeInit), Get(0), Reset, Get(3)` on
a provider of `flakyInit`.  That initializer fails on context 0, but the sequence never
runs it there: the `Get(0)` falls in the epoch of the override. -/
theorem C12_epoch_model_agreement_witness :
    invocationsSucceed (Sys.Provide flakyInit 0 [])
        [Op.Get 1, Op.Get 2, Op.Temporarily (some fakeInit), Op.Get 0, Op.Reset, Op.Get 3]
        = true
      ∧ ((Sys.Provide flakyInit 0 []).run
          [Op.Get 1, Op.Get 2, Op.Temporarily (some fakeInit), Op.Get 0, Op.Reset, Op.Get 3]).1
          = [Outcome.returned Client.RealClient, Outcome.returned Client.RealClient,
              Outcome.returned Client.FakeClient, Outcome.returned Client.RealClient] :=
  ⟨rfl, (C12_epoch_model_agreement flakyInit 0 []
    [Op.Get 1, Op.Get 2, Op.Temporarily (some fakeInit), Op.Get 0, Op.Reset, Op.Get 3] rfl).1⟩

/-! ## After a failed initialization -/

/-- C13, evaluation at the failing inputs.  First run: `Get` caches the primary value,
`Temporarily` installs an override that fails, the next `Get` panics, and the `Get`
after it returns normally with the value cached in the previous epoch, no initializer
having run since the failing one.  Second run: `Get` caches a value, `Reset` zeroes it,
the next `Get` panics because the primary fails on its context, and the `Get` after it
returns normally with the zero value `nil`. -/
theorem C13_stale_value_returned :
    (realSys.run [Op.Get 1, Op.Temporarily (some failingInit), Op.Get 2, Op.Get 3]).1
        = [Outcome.returned Client.RealClient,
            Outcome.panicked (GoError.wrapError "initialization failed: failed to initialize"
              (GoError.errorString "failed to initialize")),
            Outcome.returned Client.RealClient]
      ∧ (realSys.run [Op.Get 1, Op.Temporarily (some failingInit), Op.Get 2, Op.Get 3]).2.calls
        = [{ slot := Slot.fn, ctx := 1 }, { slot := Slot.tempFn, ctx := 2 }]
      ∧ ((Sys.Provide flakyInit 0 []).run [Op.Get 1, Op.Reset, Op.Get 0, Op.Get 1]).1
        = [Outcome.returned Client.RealClient,
            Outcome.panicked (GoError.wrapError "initialization failed: unavailable"
              (GoError.errorString "unavailable")),
            Outcome.returned Client.nil]
      ∧ ((Sys.Provide flakyInit 0 []).run [Op.Get 1, Op.Reset, Op.Get 0, Op.Get 1]).2.calls
        = [{ slot := Slot.fn, ctx := 1 }, { slot := Slot.fn, ctx := 0 }] := by
  decide

/-- C15 (state after a failed initialization).  When the once-guard is unset and the
selected initializer returns an error on `ctx`, `Get(ctx)` panics and leaves the
once-guard set, while the stored value, the override and the primary initializer are
what they were.  A following `Get`, with no `Reset` or `Temporarily` in between,
returns the stored value normally and changes nothing, so it invokes no initializer.
That value is the zero value of `T` when the failed call came right after `Provide` or
`Reset`, and the value stored before the call when it came right after a
`Temporarily`: the value cached in the previous epoch. -/
theorem C15_state_after_failed_initialization [Inhabited T] (s : Sys W C T) (ctx : C)
    (cause : GoError) (hfresh : s.p.once.done = false)
    (herr : (s.p.selected.2 ctx s.world).1.2 = some cause) :
    (s.Get ctx).1 = Outcome.panicked (Errorf "initialization failed: " cause)
      ∧ (s.Get ctx).2.p.once.done = true
      ∧ (s.Get ctx).2.p.result = s.p.result
      ∧ (s.Get ctx).2.p.tempFn = s.p.tempFn
      ∧ (s.Get ctx).2.p.fn = s.p.fn
      ∧ (∀ c : C, (s.Get ctx).2.Get c = (Outcome.returned s.p.result, (s.Get ctx).2))
      ∧ (∀ (fn : InitFn W C T) (w : W) (l : List (Call C)), s = Sys.Provide fn w l →
          ∀ c : C, ((s.Get ctx).2.Get c).1 = Outcome.returned default)
      ∧ (∀ s0 : Sys W C T, s = s0.Reset →
          ∀ c : C, ((s.Get ctx).2.Get c).1 = Outcome.returned default)
      ∧ (∀ (s0 : Sys W C T) (f : Option (InitFn W C T)), s = s0.Temporarily f →
          ∀ c : C, ((s.Get ctx).2.Get c).1 = Outcome.returned s0.p.result) := by
  have hget := Get_err s ctx hfresh cause herr
  have hres : (s.Get ctx).2.p.result = s.p.result := by rw [hget]
  have hnext : ∀ c : C, (s.Get ctx).2.Get c = (Outcome.returned s.p.result, (s.Get ctx).2) := by
    intro c
    rw [Get_done _ c (Get_done_after s ctx), hres]
  refine ⟨by rw [hget], Get_done_after s ctx, hres, Get_tempFn s ctx, Get_fn s ctx, hnext,
    ?_, ?_, ?_⟩
  · intro fn w l hs c
    rw [hnext c, hs]
    rfl
  · intro s0 hs c
    rw [hnext c, hs]
    rfl
  · intro s0 f hs c
    rw [hnext c, hs]
    rfl

/-- Witness for C15: a failing override installed on a provider that has cached
`RealClient`; after the panic every `Get` returns `RealClient`. -/
theorem C15_state_after_failed_initialization_witness :
    ((realSys.Get 1).2.Temporarily (some failingInit)).p.once.done = false
      ∧ (((realSys.Get 1).2.Temporarily (some failingInit)).Get 2).1
          = Outcome.panicked (Errorf "initialization failed: "
              (GoError.errorString "failed to initialize"))
      ∧ ∀ c : Nat,
          ((((realSys.Get 1).2.Temporarily (some failingInit)).Get 2).2.Get c).1
            = Outcome.returned Client.RealClient :=
  have h := C15_state_after_failed_initialization
    ((realSys.Get 1).2.Temporarily (some failingInit)) 2
    (GoError.errorString "failed to initialize") rfl rfl
  ⟨rfl, h.1, h.2.2.2.2.2.2.2.2 (realSys.Get 1).2 (some failingInit) rfl⟩

/-- C16 (`Temporarily` with a nil function).  From every state, `Temporarily(nil)`
leaves no override installed, so the next `Get(ctx)` makes one invocation, of the
primary initializer with `ctx`, and delivers its result: the value when it succeeds,
the wrapping panic when it fails.  The outcome, the log, the captured state, the
initializers and the once-guard are the same as after `Reset; Get(ctx)`.  Before the
`Get` the two states differ in the stored value only, which `Temporarily(nil)` keeps and
`Reset` zeroes; when the primary succeeds the states after the `Get` are equal, and
when it fails they still differ in that stored value only. -/
theorem C16_temporarily_nil [Inhabited T] (s : Sys W C T) (ctx : C) :
    (s.Temporarily none).p.tempFn = none
      ∧ (s.Temporarily none).p.selected = (Slot.fn, s.p.fn)
      ∧ ((s.Temporarily none).Get ctx).2.calls = s.calls ++ [{ slot := Slot.fn, ctx := ctx }]
      ∧ ((s.Temporarily none).Get ctx).2.world = (s.p.fn ctx s.world).2
      ∧ ((s.Temporarily none).Get ctx).1
          = (match (s.p.fn ctx s.world).1.2 with
              | none => Outcome.returned (s.p.fn ctx s.world).1.1
              | some e => Outcome.panicked (Errorf "initialization failed: " e))
      ∧ ((s.Temporarily none).Get ctx).1 = (s.Reset.Get ctx).1
      ∧ ((s.Temporarily none).Get ctx).2.calls = (s.Reset.Get ctx).2.calls
      ∧ ((s.Temporarily none).Get ctx).2.world = (s.Reset.Get ctx).2.world
      ∧ ((s.Temporarily none).Get ctx).2.p.fn = (s.Reset.Get ctx).2.p.fn
      ∧ ((s.Temporarily none).Get ctx).2.p.tempFn = (s.Reset.Get ctx).2.p.tempFn
      ∧ ((s.Temporarily none).Get ctx).2.p.once = (s.Reset.Get ctx).2.p.once
      ∧ (s.Temporarily none).p.result = s.p.result
      ∧ s.Reset.p.result = default
      ∧ s.Reset
          = { s.Temporarily none with
              p := { (s.Temporarily none).p with result := default } }
      ∧ ((s.p.fn ctx s.world).1.2 = none →
          (s.Temporarily none).Get ctx = s.Reset.Get ctx)
      ∧ (∀ e, (s.p.fn ctx s.world).1.2 = some e →
          ((s.Temporarily none).Get ctx).2.p.result = s.p.result
            ∧ (s.Reset.Get ctx).2.p.result = default) := by
  have hfT : (s.Temporarily none).p.once.done = false := rfl
  have hfR : s.Reset.p.once.done = false := rfl
  have hcT : ((s.Temporarily none).Get ctx).2.calls
      = s.calls ++ [{ slot := Slot.fn, ctx := ctx }] := Get_calls_fresh _ ctx hfT
  have hcR : (s.Reset.Get ctx).2.calls
      = s.calls ++ [{ slot := Slot.fn, ctx := ctx }] := Get_calls_fresh _ ctx hfR
  have hwT : ((s.Temporarily none).Get ctx).2.world = (s.p.fn ctx s.world).2 :=
    Get_world_fresh _ ctx hfT
  have hwR : (s.Reset.Get ctx).2.world = (s.p.fn ctx s.world).2 :=
    Get_world_fresh _ ctx hfR
  have hoT : ((s.Temporarily none).Get ctx).1
      = (match (s.p.fn ctx s.world).1.2 with
          | none => Outcome.returned (s.p.fn ctx s.world).1.1
          | some e => Outcome.panicked (Errorf "initialization failed: " e)) := by
    cases herr : (s.p.fn ctx s.world).1.2 with
    | none =>
      have hok : ((s.Temporarily none).p.selected.2 ctx (s.Temporarily none).world).1.2
          = none := herr
      rw [Get_ok _ ctx hfT hok]
      rfl
    | some e =>
      have he : ((s.Temporarily none).p.selected.2 ctx (s.Temporarily none).world).1.2
          = some e := herr
      rw [Get_err _ ctx hfT e he]
  have hoR : (s.Reset.Get ctx).1
      = (match (s.p.fn ctx s.world).1.2 with
          | none => Outcome.returned (s.p.fn ctx s.world).1.1
          | some e => Outcome.panicked (Errorf "initialization failed: " e)) := by
    cases herr : (s.p.fn ctx s.world).1.2 with
    | none =>
      have hok : (s.Reset.p.selected.2 ctx s.Reset.world).1.2 = none := herr
      rw [Get_ok _ ctx hfR hok]
      rfl
    | some e =>
      have he : (s.Reset.p.selected.2 ctx s.Reset.world).1.2 = some e := herr
      rw [Get_err _ ctx hfR e he]
  refine ⟨rfl, rfl, hcT, hwT, hoT, hoT.trans hoR.symm, hcT.trans hcR.symm,
    hwT.trans hwR.symm, ?_, ?_, ?_, rfl, rfl, rfl, ?_, ?_⟩
  · rw [Get_fn, Get_fn]; rfl
  · rw [Get_tempFn, Get_tempFn]; rfl
  · have h1 := Get_done_after (s.Temporarily none) ctx
    have h2 := Get_done_after s.Reset ctx
    cases hT : ((s.Temporarily none).Get ctx).2.p.once with
    | mk d1 =>
      cases hR : (s.Reset.Get ctx).2.p.once with
      | mk d2 =>
        rw [hT] at h1
        rw [hR] at h2
        simp only at h1 h2
        rw [h1, h2]
  · intro herr
    have hokT : ((s.Temporarily none).p.selected.2 ctx (s.Temporarily none).world).1.2
        = none := herr
    have hokR : (s.Reset.p.selected.2 ctx s.Reset.world).1.2 = none := herr
    rw [Get_ok _ ctx hfT hokT, Get_ok _ ctx hfR hokR]
    rfl
  · intro e herr
    have heT : ((s.Temporarily none).p.selected.2 ctx (s.Temporarily none).world).1.2
        = some e := herr
    have heR : (s.Reset.p.selected.2 ctx s.Reset.world).1.2 = some e := herr
    rw [Get_err _ ctx hfT e heT, Get_err _ ctx hfR e heR]
    exact ⟨rfl, rfl⟩

/-- Witness for C16: an override is installed and used, then `Temporarily(nil)` drops
it and the next `Get` runs the primary. -/
theorem C16_temporarily_nil_witness :
    ((((realSys.Temporarily (some fakeInit)).Get 1).2.Temporarily none).Get 2).1
        = Outcome.returned Client.RealClient
      ∧ ((((realSys.Temporarily (some fakeInit)).Get 1).2.Temporarily none).Get 2).2.calls
        = [{ slot := Slot.tempFn, ctx := 1 }, { slot := Slot.fn, ctx := 2 }]
      ∧ ((((realSys.Temporarily (some fakeInit)).Get 1).2.Temporarily none).Get 2)
        = (((realSys.Temporarily (some fakeInit)).Get 1).2.Reset.Get 2) :=
  have h := C16_temporarily_nil ((realSys.Temporarily (some fakeInit)).Get 1).2 2
  ⟨h.2.2.2.2.1, h.2.2.1, h.2.2.2.2.2.2.2.2.2.2.2.2.2.2.1 rfl⟩


/-! ## The lock is held while the initializer runs -/

theorem GetEnter_running (m0 : Shared W C T) (ctx : C) (m : Shared W C T)
    (r : Running W C T) (hrun : m0.GetEnter ctx = GetEntry.running m r) :
    m0.sys.p.once.done = false ∧ m0.mu.locked = false
      ∧ m = { mu := { locked := true }, sys := m0.sys }
      ∧ r = { slot := m0.sys.p.selected.1, fn := m0.sys.p.selected.2, ctx := ctx } := by
  unfold Shared.GetEnter at hrun
  cases hd : m0.sys.p.once.done with
  | true => simp [hd] at hrun
  | false =>
    cases hl : m0.mu.locked with
    | true => simp [hd, Mutex.Lock, hl] at hrun
    | false =>
      simp [hd, Mutex.Lock, hl] at hrun
      exact ⟨rfl, rfl, hrun.1.symm, hrun.2.symm⟩

theorem GetCommit_eq_initBody (s : Sys W C T) (ctx : C) (mu : Mutex) :
    (Shared.GetCommit { mu := mu, sys := s }
        { slot := s.p.selected.1, fn := s.p.selected.2, ctx := ctx })
      = ((Provider.initBody ctx s).1, { mu := mu, sys := (Provider.initBody ctx s).2 }) := by
  cases herr : (s.p.selected.2 ctx s.world).1.2 with
  | none => simp [Shared.GetCommit, Provider.initBody, herr]
  | some e => simp [Shared.GetCommit, Provider.initBody, herr]

theorem GetCommit_mu (m : Shared W C T) (r : Running W C T) :
    (m.GetCommit r).2.mu = m.mu := by
  cases herr : (r.fn r.ctx m.sys.world).1.2 <;> simp [Shared.GetCommit, herr]

theorem GetCommit_once (m : Shared W C T) (r : Running W C T) :
    (m.GetCommit r).2.sys.p.once = m.sys.p.once := by
  cases herr : (r.fn r.ctx m.sys.world).1.2 <;> simp [Shared.GetCommit, herr]

/-- C14, as amended.  Whenever a call of `Get` is inside its initializer, the lock
`p.mu` is held, the rest of the shared memory being as that call found it.  A `Reset`
or a `Temporarily` made by another caller at that point waits at `p.mu.Lock()` and does
not complete, and it still waits when the initializer has returned and the function
literal has panicked or stored the value, for the lock is still held.  Once the
deferred `p.mu.Unlock()` of the literal has run, the lock is free and `Reset` and
`Temporarily` complete.  (At that moment `sync.Once` has not stored the once-guard yet
and `Get` has not read `p.result` yet; what `Get` then returns is not part of this
statement.)  The effect of the function literal on the system is that of the
sequential embedding. -/
theorem C14_reset_waits_for_initializer [Inhabited T] (m0 : Shared W C T) (ctx : C)
    (m : Shared W C T) (r : Running W C T)
    (hrun : m0.GetEnter ctx = GetEntry.running m r) :
    m.mu.locked = true
      ∧ m.sys = m0.sys
      ∧ r.fn = m0.sys.p.selected.2 ∧ r.ctx = ctx
      ∧ m.Reset = none
      ∧ (∀ f : Option (InitFn W C T), m.Temporarily f = none)
      ∧ (m.GetCommit r).1 = (Provider.initBody ctx m0.sys).1
      ∧ (m.GetCommit r).2.sys = (Provider.initBody ctx m0.sys).2
      ∧ (m.GetCommit r).2.mu.locked = true
      ∧ (m.GetCommit r).2.Reset = none
      ∧ (∀ f : Option (InitFn W C T), (m.GetCommit r).2.Temporarily f = none)
      ∧ (m.GetCommit r).2.GetUnlock.mu.locked = false
      ∧ (m.GetCommit r).2.GetUnlock.sys.p.once.done = false
      ∧ (m.GetCommit r).2.GetUnlock.Reset
          = some { mu := { locked := false },
                   sys := (Provider.initBody ctx m0.sys).2.Reset }
      ∧ (∀ f : Option (InitFn W C T), (m.GetCommit r).2.GetUnlock.Temporarily f
          = some { mu := { locked := false },
                   sys := (Provider.initBody ctx m0.sys).2.Temporarily f }) := by
  obtain ⟨hfresh, -, hm, hr⟩ := GetEnter_running m0 ctx m r hrun
  subst hm
  subst hr
  have hc := GetCommit_eq_initBody m0.sys ctx { locked := true }
  have honce := GetCommit_once ({ mu := { locked := true }, sys := m0.sys } : Shared W C T)
    { slot := m0.sys.p.selected.1, fn := m0.sys.p.selected.2, ctx := ctx }
  refine ⟨rfl, rfl, rfl, rfl, rfl, fun _ => rfl, ?_, ?_, ?_, ?_, ?_, ?_, ?_, ?_, ?_⟩
  · rw [hc]
  · rw [hc]
  · rw [hc]
  · rw [hc]; rfl
  · intro f
    rw [hc]; rfl
  · rfl
  · show (Shared.GetCommit _ _).2.sys.p.once.done = false
    rw [honce]
    exact hfresh
  · rw [hc]; rfl
  · intro f
    rw [hc]; rfl

/-- Witness for C14: `Get(1)` on the fresh `realShared` is inside `realInit` with the
lock held; `Reset` waits; after the deferred unlock of the function literal the lock is
free and `Reset` completes. -/
theorem C14_reset_waits_for_initializer_witness :
    realShared.GetEnter 1
        = GetEntry.running { mu := { locked := true }, sys := realSys }
            { slot := Slot.fn, fn := realInit, ctx := 1 }
      ∧ Shared.Reset ({ mu := { locked := true }, sys := realSys } : Shared Nat Nat Client)
          = none
      ∧ (Shared.GetCommit ({ mu := { locked := true }, sys := realSys } : Shared Nat Nat Client)
          { slot := Slot.fn, fn := realInit, ctx := 1 }).2.GetUnlock.mu.locked = false :=
  have h := C14_reset_waits_for_initializer realShared 1
    { mu := { locked := true }, sys := realSys }
    { slot := Slot.fn, fn := realInit, ctx := 1 } rfl
  ⟨rfl, h.2.2.2.2.1, h.2.2.2.2.2.2.2.2.2.2.2.1⟩

/-- C14, counterexample.  On the fresh `realShared`, while `Get(1)` is executing the
initializer the lock is held, and neither `Reset` nor `Temporarily(fakeInit)`
completes: each waits at `p.mu.Lock()`. -/
theorem C14_reset_blocked_while_initializer_runs :
    ∃ (m : Shared Nat Nat Client) (r : Running Nat Nat Client),
      realShared.GetEnter 1 = GetEntry.running m r
        ∧ r.ctx = 1
        ∧ m.mu.locked = true
        ∧ m.Reset = none
        ∧ m.Temporarily (some fakeInit) = none :=
  ⟨{ mu := { locked := true }, sys := realSys },
    { slot := Slot.fn, fn := realInit, ctx := 1 }, rfl, rfl, rfl, rfl, rfl⟩


/-! ## Concurrent calls: the lock invariants -/

theorem get_set_cases {α : Type} (l : List α) (k i : Nat) (a b : α)
    (h : (l.set k a)[i]? = some b) : (i = k ∧ b = a) ∨ (i ≠ k ∧ l[i]? = some b) := by
  rw [List.getElem?_set] at h
  by_cases hki : k = i
  · rw [if_pos hki] at h
    by_cases hlt : k < l.length
    · rw [if_pos hlt] at h
      exact Or.inl ⟨hki.symm, (Option.some.inj h).symm⟩
    · rw [if_neg hlt] at h
      cases h
  · rw [if_neg hki] at h
    exact Or.inr ⟨fun e => hki e.symm, h⟩

theorem get_set_self_of {α : Type} (l : List α) (k : Nat) (a pc : α)
    (hk : l[k]? = some pc) : (l.set k a)[k]? = some a := by
  have hlt : k < l.length := by
    rcases Nat.lt_or_ge k l.length with h | h
    · exact h
    · rw [List.getElem?_eq_none h] at hk
      cases hk
  rw [List.getElem?_set, if_pos rfl, if_pos hlt]

theorem get_set_ne_of {α : Type} (l : List α) (k i : Nat) (a : α) (h : i ≠ k) :
    (l.set k a)[i]? = l[i]? := by
  rw [List.getElem?_set, if_neg (fun e => h e.symm)]

theorem LockInv_set (h : Pc W C T → Bool) (b b1 : Bool) (gs : List (Pc W C T)) (k : Nat)
    (pc pc1 : Pc W C T) (hk : gs[k]? = some pc) (hinv : LockInv h b gs)
    (hmode : (h pc1 = h pc ∧ b1 = b)
      ∨ (h pc = false ∧ h pc1 = true ∧ b = false ∧ b1 = true)
      ∨ (h pc = true ∧ h pc1 = false ∧ b1 = false)) :
    LockInv h b1 (gs.set k pc1) := by
  obtain ⟨hex, hheld, hfree⟩ := hinv
  have hself := get_set_self_of gs k pc1 pc hk
  rcases hmode with ⟨hsame, hb⟩ | ⟨hold, hnew, hbf, hbt⟩ | ⟨hold, hnew, hbf⟩
  · -- the position holds the mutex after the step exactly if it did before
    have old : ∀ (i : Nat) (p : Pc W C T), (gs.set k pc1)[i]? = some p → h p = true →
        ∃ q, gs[i]? = some q ∧ h q = true := by
      intro i p hi hp
      rcases get_set_cases gs k i pc1 p hi with ⟨hik, hpa⟩ | ⟨_, hi2⟩
      · subst hik; subst hpa
        exact ⟨pc, hk, by rw [← hsame]; exact hp⟩
      · exact ⟨p, hi2, hp⟩
    refine ⟨?_, ?_, ?_⟩
    · intro i j pi pj hi hj hpi hpj
      obtain ⟨qi, hqi, hhqi⟩ := old i pi hi hpi
      obtain ⟨qj, hqj, hhqj⟩ := old j pj hj hpj
      exact hex i j qi qj hqi hqj hhqi hhqj
    · intro i p hi hp
      obtain ⟨q, hq, hhq⟩ := old i p hi hp
      rw [hb]
      exact hheld i q hq hhq
    · intro hb1
      rw [hb] at hb1
      obtain ⟨i, p, hi, hp⟩ := hfree hb1
      by_cases hik : i = k
      · subst hik
        rw [hk] at hi
        cases hi
        exact ⟨i, pc1, hself, by rw [hsame]; exact hp⟩
      · exact ⟨i, p, by rw [get_set_ne_of gs k i pc1 hik]; exact hi, hp⟩
  · -- the goroutine acquires the free mutex
    have none_old : ∀ (i : Nat) (p : Pc W C T), gs[i]? = some p → h p = true → False := by
      intro i p hi hp
      have := hheld i p hi hp
      rw [hbf] at this
      cases this
    have only : ∀ (i : Nat) (p : Pc W C T),
        (gs.set k pc1)[i]? = some p → h p = true → i = k := by
      intro i p hi hp
      rcases get_set_cases gs k i pc1 p hi with ⟨hik, _⟩ | ⟨_, hi2⟩
      · exact hik
      · exact (none_old i p hi2 hp).elim
    refine ⟨?_, ?_, ?_⟩
    · intro i j pi pj hi hj hpi hpj
      rw [only i pi hi hpi, only j pj hj hpj]
    · intro _ _ _ _
      exact hbt
    · intro _
      exact ⟨k, pc1, hself, hnew⟩
  · -- the holder releases the mutex
    have none_new : ∀ (i : Nat) (p : Pc W C T),
        (gs.set k pc1)[i]? = some p → h p = true → False := by
      intro i p hi hp
      rcases get_set_cases gs k i pc1 p hi with ⟨_, hpa⟩ | ⟨hik, hi2⟩
      · subst hpa
        rw [hnew] at hp
        cases hp
      · exact hik (hex i k p pc hi2 hk hp hold)
    refine ⟨?_, ?_, ?_⟩
    · intro i j pi pj hi _ hpi _
      exact (none_new i pi hi hpi).elim
    · intro i p hi hp
      exact (none_new i p hi hp).elim
    · intro hb1
      rw [hbf] at hb1
      cases hb1

theorem forall_set {P : Pc W C T → Prop} (gs : List (Pc W C T)) (k : Nat) (a : Pc W C T)
    (hall : ∀ (i : Nat) (pc : Pc W C T), gs[i]? = some pc → P pc) (ha : P a) :
    ∀ (i : Nat) (pc : Pc W C T), (gs.set k a)[i]? = some pc → P pc := by
  intro i pc hi
  rcases get_set_cases gs k i a pc hi with ⟨_, hpa⟩ | ⟨_, hi2⟩
  · rw [hpa]; exact ha
  · exact hall i pc hi2

theorem exists_set_other (Q : Pc W C T → Bool) (gs : List (Pc W C T)) (k : Nat)
    (a pck : Pc W C T) (hk : gs[k]? = some pck) (hq : Q pck = false)
    (hex : ∃ (i : Nat) (pc : Pc W C T), gs[i]? = some pc ∧ Q pc = true) :
    ∃ (i : Nat) (pc : Pc W C T), (gs.set k a)[i]? = some pc ∧ Q pc = true := by
  obtain ⟨i, pc, hi, hp⟩ := hex
  by_cases hik : i = k
  · subst hik
    rw [hk] at hi
    cases hi
    rw [hq] at hp
    cases hp
  · exact ⟨i, pc, by rw [get_set_ne_of gs k i a hik]; exact hi, hp⟩

/-- Replacing the position of goroutine `k` and the memory keeps the invariant, when the
new position, the locks and the stage fit together. -/
theorem Inv_update [Inhabited T] (fn : InitFn W C T) (w : W) (l : List (Call C))
    (ctxs : List C) (st : Conc W C T) (k : Nat) (pc pc1 : Pc W C T)
    (mem1 : Shared W C T) (onceM1 : Mutex)
    (hinv : Inv fn w l ctxs st) (hk : st.gs[k]? = some pc)
    (hfn : mem1.sys.p.fn = fn) (htemp : mem1.sys.p.tempFn = none)
    (hok : pcOk fn ctxs pc1)
    (honce : (pc1.holdsOnce = pc.holdsOnce ∧ onceM1.locked = st.onceM.locked)
      ∨ (pc.holdsOnce = false ∧ pc1.holdsOnce = true ∧ st.onceM.locked = false
          ∧ onceM1.locked = true)
      ∨ (pc.holdsOnce = true ∧ pc1.holdsOnce = false ∧ onceM1.locked = false))
    (hmu : (pc1.holdsMu = pc.holdsMu ∧ mem1.mu.locked = st.mem.mu.locked)
      ∨ (pc.holdsMu = false ∧ pc1.holdsMu = true ∧ st.mem.mu.locked = false
          ∧ mem1.mu.locked = true)
      ∨ (pc.holdsMu = true ∧ pc1.holdsMu = false ∧ mem1.mu.locked = false))
    (hstage : EarlyStage w l { mem := mem1, onceM := onceM1, gs := st.gs.set k pc1 }
      ∨ ∃ c, c ∈ ctxs
          ∧ LateStage fn w l c { mem := mem1, onceM := onceM1, gs := st.gs.set k pc1 }) :
    Inv fn w l ctxs { mem := mem1, onceM := onceM1, gs := st.gs.set k pc1 } where
  fnEq := hfn
  tempEq := htemp
  len := by simp [hinv.len]
  ctxOk := forall_set st.gs k pc1 hinv.ctxOk hok
  once := LockInv_set Pc.holdsOnce _ _ st.gs k pc pc1 hk hinv.once honce
  mu := LockInv_set Pc.holdsMu _ _ st.gs k pc pc1 hk hinv.mu hmu
  stage := hstage

theorem GetCommit_fn (m : Shared W C T) (r : Running W C T) :
    (m.GetCommit r).2.sys.p.fn = m.sys.p.fn := by
  cases herr : (r.fn r.ctx m.sys.world).1.2 <;> simp [Shared.GetCommit, herr]

theorem GetCommit_tempFn (m : Shared W C T) (r : Running W C T) :
    (m.GetCommit r).2.sys.p.tempFn = m.sys.p.tempFn := by
  cases herr : (r.fn r.ctx m.sys.world).1.2 <;> simp [Shared.GetCommit, herr]

theorem GetCommit_calls (m : Shared W C T) (r : Running W C T) :
    (m.GetCommit r).2.sys.calls = m.sys.calls ++ [{ slot := r.slot, ctx := r.ctx }] := by
  cases herr : (r.fn r.ctx m.sys.world).1.2 <;> simp [Shared.GetCommit, herr]

theorem GetCommit_world (m : Shared W C T) (r : Running W C T) :
    (m.GetCommit r).2.sys.world = (r.fn r.ctx m.sys.world).2 := by
  cases herr : (r.fn r.ctx m.sys.world).1.2 <;> simp [Shared.GetCommit, herr]

theorem GetCommit_ok (m : Shared W C T) (r : Running W C T)
    (hok : (r.fn r.ctx m.sys.world).1.2 = none) :
    (m.GetCommit r).1 = none
      ∧ (m.GetCommit r).2.sys.p.result = (r.fn r.ctx m.sys.world).1.1 := by
  simp [Shared.GetCommit, hok]

theorem early_good (v : T) (pc : Pc W C T) (h : pc.early = true) : good v pc := by
  cases pc <;> trivial

theorem committing_holdsOnce (pc : Pc W C T) (h : pc.committing = true) :
    pc.holdsOnce = true := by
  cases pc <;> first | rfl | cases h

theorem calling_holdsOnce (pc : Pc W C T) (h : pc.calling = true) :
    pc.holdsOnce = true := by
  cases pc <;> first | rfl | cases h

theorem Early_keep (w : W) (l : List (Call C)) (st : Conc W C T) (k : Nat)
    (pc1 : Pc W C T) (mem1 : Shared W C T) (onceM1 : Mutex)
    (hE : EarlyStage w l st) (hsys : mem1.sys = st.mem.sys) (he : pc1.early = true) :
    EarlyStage w l { mem := mem1, onceM := onceM1, gs := st.gs.set k pc1 } := by
  obtain ⟨hd, hc, hw, hall⟩ := hE
  refine ⟨?_, ?_, ?_, forall_set st.gs k pc1 hall he⟩
  · show mem1.sys.p.once.done = false
    rw [hsys]; exact hd
  · show mem1.sys.calls = l
    rw [hsys]; exact hc
  · show mem1.sys.world = w
    rw [hsys]; exact hw

theorem Late_keep (fn : InitFn W C T) (w : W) (l : List (Call C)) (c : C)
    (st : Conc W C T) (k : Nat) (pc pc1 : Pc W C T) (mem1 : Shared W C T)
    (onceM1 : Mutex) (hk : st.gs[k]? = some pc)
    (hL : LateStage fn w l c st)
    (hcalls : mem1.sys.calls = st.mem.sys.calls)
    (hworld : mem1.sys.world = st.mem.sys.world)
    (hresult : mem1.sys.p.result = st.mem.sys.p.result)
    (hdone : mem1.sys.p.once.done = false →
      st.mem.sys.p.once.done = false ∧ (pc.committing = false ∨ pc1.committing = true))
    (hcall : pc1.calling = false)
    (hgood : (fn c w).1.2 = none → st.mem.sys.p.result = (fn c w).1.1 →
      good (fn c w).1.1 pc → good (fn c w).1.1 pc1) :
    LateStage fn w l c { mem := mem1, onceM := onceM1, gs := st.gs.set k pc1 } := by
  obtain ⟨hc, hw, hnc, hcomm, hsucc⟩ := hL
  refine ⟨?_, ?_, forall_set st.gs k pc1 hnc hcall, ?_, ?_⟩
  · show mem1.sys.calls = _
    rw [hcalls]; exact hc
  · show mem1.sys.world = _
    rw [hworld]; exact hw
  · intro hd
    obtain ⟨hd0, hcase⟩ := hdone hd
    rcases hcase with hold | hnew
    · exact exists_set_other Pc.committing st.gs k pc1 pc hk hold (hcomm hd0)
    · exact ⟨k, pc1, get_set_self_of st.gs k pc1 pc hk, hnew⟩
  · intro hok
    obtain ⟨hres, hgd⟩ := hsucc hok
    refine ⟨?_, forall_set st.gs k pc1 hgd (hgood hok hres (hgd k pc hk))⟩
    show mem1.sys.p.result = _
    rw [hresult]; exact hres

theorem Inv_start [Inhabited T] (fn : InitFn W C T) (w : W) (l : List (Call C))
    (ctxs : List C) : Inv fn w l ctxs (Conc.start fn w l ctxs) where
  fnEq := rfl
  tempEq := rfl
  len := by simp [Conc.start]
  ctxOk := by
    intro i pc hi
    simp only [Conc.start, List.getElem?_map] at hi
    cases hc : ctxs[i]? with
    | none => rw [hc] at hi; cases hi
    | some c =>
      rw [hc] at hi
      cases hi
      exact List.getElem?_mem hc
  once := by
    refine ⟨?_, ?_, ?_⟩
    · intro i j pi pj hi _ hpi _
      simp only [Conc.start, List.getElem?_map] at hi
      cases hc : ctxs[i]? with
      | none => rw [hc] at hi; cases hi
      | some c => rw [hc] at hi; cases hi; cases hpi
    · intro i pc hi hp
      simp only [Conc.start, List.getElem?_map] at hi
      cases hc : ctxs[i]? with
      | none => rw [hc] at hi; cases hi
      | some c => rw [hc] at hi; cases hi; cases hp
    · intro h
      cases h
  mu := by
    refine ⟨?_, ?_, ?_⟩
    · intro i j pi pj hi _ hpi _
      simp only [Conc.start, List.getElem?_map] at hi
      cases hc : ctxs[i]? with
      | none => rw [hc] at hi; cases hi
      | some c => rw [hc] at hi; cases hi; cases hpi
    · intro i pc hi hp
      simp only [Conc.start, List.getElem?_map] at hi
      cases hc : ctxs[i]? with
      | none => rw [hc] at hi; cases hi
      | some c => rw [hc] at hi; cases hi; cases hp
    · intro h
      cases h
  stage := by
    refine Or.inl ⟨rfl, rfl, rfl, ?_⟩
    intro i pc hi
    simp only [Conc.start, List.getElem?_map] at hi
    cases hc : ctxs[i]? with
    | none => rw [hc] at hi; cases hi
    | some c => rw [hc] at hi; cases hi; rfl

theorem Inv_step [Inhabited T] (fn : InitFn W C T) (w : W) (l : List (Call C))
    (ctxs : List C) (st : Conc W C T) (k : Nat) (hinv : Inv fn w l ctxs st) :
    Inv fn w l ctxs (st.step k) := by
  unfold Conc.step
  cases hk : st.gs[k]? with
  | none => exact hinv
  | some pc =>
    have hpcOk := hinv.ctxOk k pc hk
    have hnotEarly : pc.early = false → ¬ EarlyStage w l st := by
      intro hne hE
      have := hE.2.2.2 k pc hk
      rw [hne] at this
      cases this
    have hnotLate : pc.calling = true → ∀ c, ¬ LateStage fn w l c st := by
      intro hc c hL
      have := hL.2.2.1 k pc hk
      rw [hc] at this
      cases this
    cases pc with
    | enter c =>
      cases hd : st.mem.sys.p.once.done with
      | true =>
        simp only [Pc.act, hd, if_true]
        refine Inv_update fn w l ctxs st k _ _ _ _ hinv hk hinv.fnEq hinv.tempEq trivial
          (Or.inl ⟨rfl, rfl⟩) (Or.inl ⟨rfl, rfl⟩) ?_
        rcases hinv.stage with hE | ⟨c1, hc1, hL⟩
        · rw [hE.1] at hd; cases hd
        · exact Or.inr ⟨c1, hc1, Late_keep fn w l c1 st k _ _ _ _ hk hL rfl rfl rfl
            (fun h => ⟨h, Or.inl rfl⟩) rfl (fun _ _ _ => trivial)⟩
      | false =>
        simp only [Pc.act, hd, Bool.false_eq_true, if_false]
        refine Inv_update fn w l ctxs st k _ _ _ _ hinv hk hinv.fnEq hinv.tempEq hpcOk
          (Or.inl ⟨rfl, rfl⟩) (Or.inl ⟨rfl, rfl⟩) ?_
        rcases hinv.stage with hE | ⟨c1, hc1, hL⟩
        · exact Or.inl (Early_keep w l st k _ _ _ hE rfl rfl)
        · exact Or.inr ⟨c1, hc1, Late_keep fn w l c1 st k _ _ _ _ hk hL rfl rfl rfl
            (fun h => ⟨h, Or.inl rfl⟩) rfl (fun _ _ _ => trivial)⟩
    | lockOnce c =>
      cases hl : st.onceM.locked with
      | true =>
        simp only [Pc.act, Mutex.Lock, hl, if_true]
        exact hinv
      | false =>
        simp only [Pc.act, Mutex.Lock, hl, Bool.false_eq_true, if_false]
        refine Inv_update fn w l ctxs st k _ _ _ _ hinv hk hinv.fnEq hinv.tempEq hpcOk
          (Or.inr (Or.inl ⟨rfl, rfl, hl, rfl⟩)) (Or.inl ⟨rfl, rfl⟩) ?_
        rcases hinv.stage with hE | ⟨c1, hc1, hL⟩
        · exact Or.inl (Early_keep w l st k _ _ _ hE rfl rfl)
        · exact Or.inr ⟨c1, hc1, Late_keep fn w l c1 st k _ _ _ _ hk hL rfl rfl rfl
            (fun h => ⟨h, Or.inl rfl⟩) rfl (fun _ _ _ => trivial)⟩
    | check c =>
      cases hd : st.mem.sys.p.once.done with
      | true =>
        simp only [Pc.act, hd, if_true]
        refine Inv_update fn w l ctxs st k _ _ _ _ hinv hk hinv.fnEq hinv.tempEq trivial
          (Or.inl ⟨rfl, rfl⟩) (Or.inl ⟨rfl, rfl⟩) ?_
        rcases hinv.stage with hE | ⟨c1, hc1, hL⟩
        · rw [hE.1] at hd; cases hd
        · exact Or.inr ⟨c1, hc1, Late_keep fn w l c1 st k _ _ _ _ hk hL rfl rfl rfl
            (fun h => ⟨h, Or.inl rfl⟩) rfl (fun _ _ _ => rfl)⟩
      | false =>
        simp only [Pc.act, hd, Bool.false_eq_true, if_false]
        refine Inv_update fn w l ctxs st k _ _ _ _ hinv hk hinv.fnEq hinv.tempEq hpcOk
          (Or.inl ⟨rfl, rfl⟩) (Or.inl ⟨rfl, rfl⟩) ?_
        rcases hinv.stage with hE | ⟨c1, hc1, hL⟩
        · exact Or.inl (Early_keep w l st k _ _ _ hE rfl rfl)
        · -- the goroutine on its way to store the once-guard holds the mutex of the Once
          obtain ⟨i, pi, hi, hcomm⟩ := hL.2.2.2.1 hd
          have hik := hinv.once.1 i k pi _ hi hk (committing_holdsOnce pi hcomm) rfl
          subst hik
          rw [hk] at hi
          cases hi
          cases hcomm
    | lockMu c =>
      cases hl : st.mem.mu.locked with
      | true =>
        simp only [Pc.act, Mutex.Lock, hl, if_true]
        exact hinv
      | false =>
        simp only [Pc.act, Mutex.Lock, hl, Bool.false_eq_true, if_false]
        have hsel : st.mem.sys.p.selected = (Slot.fn, fn) := by
          simp [Provider.selected, hinv.tempEq, hinv.fnEq]
        refine Inv_update fn w l ctxs st k _ _ _ _ hinv hk hinv.fnEq hinv.tempEq ?_
          (Or.inl ⟨rfl, rfl⟩) (Or.inr (Or.inl ⟨rfl, rfl, hl, rfl⟩)) ?_
        · exact ⟨by rw [hsel], by rw [hsel], hpcOk⟩
        · rcases hinv.stage with hE | ⟨c1, _, hL⟩
          · exact Or.inl (Early_keep w l st k _ _ _ hE rfl rfl)
          · exact (hnotLate rfl c1 hL).elim
    | running r =>
      simp only [Pc.act]
      obtain ⟨hslot, hrfn, hrctx⟩ := hpcOk
      refine Inv_update fn w l ctxs st k _ _ _ _ hinv hk
        ((GetCommit_fn st.mem r).trans hinv.fnEq)
        ((GetCommit_tempFn st.mem r).trans hinv.tempEq) trivial
        (Or.inl ⟨rfl, rfl⟩) (Or.inl ⟨rfl, by rw [GetCommit_mu]⟩) ?_
      rcases hinv.stage with hE | ⟨c1, _, hL⟩
      · obtain ⟨hd, hc, hw, hall⟩ := hE
        refine Or.inr ⟨r.ctx, hrctx, ?_, ?_, ?_, ?_, ?_⟩
        · show (st.mem.GetCommit r).2.sys.calls = _
          rw [GetCommit_calls, hc, hslot]
        · show (st.mem.GetCommit r).2.sys.world = _
          rw [GetCommit_world, hw, hrfn]
        · intro i pi hi
          rcases get_set_cases st.gs k i _ pi hi with ⟨_, hpa⟩ | ⟨hik, hi2⟩
          · rw [hpa]; rfl
          · cases hcall : pi.calling with
            | false => rfl
            | true =>
              exact (hik (hinv.once.1 i k pi _ hi2 hk (calling_holdsOnce pi hcall) rfl)).elim
        · intro _
          exact ⟨k, _, get_set_self_of st.gs k _ _ hk, rfl⟩
        · intro hok
          have hok2 : (r.fn r.ctx st.mem.sys.world).1.2 = none := by
            rw [hrfn, hw]; exact hok
          obtain ⟨hpan, hres⟩ := GetCommit_ok st.mem r hok2
          refine ⟨?_, ?_⟩
          · show (st.mem.GetCommit r).2.sys.p.result = _
            rw [hres, hrfn, hw]
          · intro i pi hi
            rcases get_set_cases st.gs k i _ pi hi with ⟨_, hpa⟩ | ⟨_, hi2⟩
            · rw [hpa]; exact hpan
            · exact early_good _ pi (hall i pi hi2)
      · exact (hnotLate rfl c1 hL).elim
    | unlockMu pan =>
      simp only [Pc.act]
      refine Inv_update fn w l ctxs st k _ _ _ _ hinv hk hinv.fnEq hinv.tempEq trivial
        (Or.inl ⟨rfl, rfl⟩) (Or.inr (Or.inr ⟨rfl, rfl, rfl⟩)) ?_
      rcases hinv.stage with hE | ⟨c1, hc1, hL⟩
      · exact (hnotEarly rfl hE).elim
      · exact Or.inr ⟨c1, hc1, Late_keep fn w l c1 st k _ _ _ _ hk hL rfl rfl rfl
          (fun h => ⟨h, Or.inr rfl⟩) rfl (fun _ _ h => h)⟩
    | setDone pan =>
      simp only [Pc.act]
      refine Inv_update fn w l ctxs st k _ _ _ _ hinv hk hinv.fnEq hinv.tempEq trivial
        (Or.inl ⟨rfl, rfl⟩) (Or.inl ⟨rfl, rfl⟩) ?_
      rcases hinv.stage with hE | ⟨c1, hc1, hL⟩
      · exact (hnotEarly rfl hE).elim
      · exact Or.inr ⟨c1, hc1, Late_keep fn w l c1 st k _ _ _ _ hk hL rfl rfl rfl
          (fun h => by cases h) rfl (fun _ _ h => h)⟩
    | unlockOnce pan =>
      cases pan with
      | none =>
        simp only [Pc.act]
        refine Inv_update fn w l ctxs st k _ _ _ _ hinv hk hinv.fnEq hinv.tempEq trivial
          (Or.inr (Or.inr ⟨rfl, rfl, rfl⟩)) (Or.inl ⟨rfl, rfl⟩) ?_
        rcases hinv.stage with hE | ⟨c1, hc1, hL⟩
        · exact (hnotEarly rfl hE).elim
        · exact Or.inr ⟨c1, hc1, Late_keep fn w l c1 st k _ _ _ _ hk hL rfl rfl rfl
            (fun h => ⟨h, Or.inl rfl⟩) rfl (fun _ _ _ => trivial)⟩
      | some e =>
        simp only [Pc.act]
        refine Inv_update fn w l ctxs st k _ _ _ _ hinv hk hinv.fnEq hinv.tempEq trivial
          (Or.inr (Or.inr ⟨rfl, rfl, rfl⟩)) (Or.inl ⟨rfl, rfl⟩) ?_
        rcases hinv.stage with hE | ⟨c1, hc1, hL⟩
        · exact (hnotEarly rfl hE).elim
        · exact Or.inr ⟨c1, hc1, Late_keep fn w l c1 st k _ _ _ _ hk hL rfl rfl rfl
            (fun h => ⟨h, Or.inl rfl⟩) rfl (fun _ _ h => by cases h)⟩
    | ret =>
      simp only [Pc.act]
      refine Inv_update fn w l ctxs st k _ _ _ _ hinv hk hinv.fnEq hinv.tempEq trivial
        (Or.inl ⟨rfl, rfl⟩) (Or.inl ⟨rfl, rfl⟩) ?_
      rcases hinv.stage with hE | ⟨c1, hc1, hL⟩
      · exact (hnotEarly rfl hE).elim
      · exact Or.inr ⟨c1, hc1, Late_keep fn w l c1 st k _ _ _ _ hk hL rfl rfl rfl
          (fun h => ⟨h, Or.inl rfl⟩) rfl (fun _ hres _ => by
            show Outcome.returned st.mem.sys.p.result = _
            rw [hres])⟩
    | finished o =>
      simp only [Pc.act]
      exact hinv

theorem Inv_run [Inhabited T] (fn : InitFn W C T) (w : W) (l : List (Call C))
    (ctxs : List C) (sched : List Nat) (st : Conc W C T) (hinv : Inv fn w l ctxs st) :
    Inv fn w l ctxs (st.run sched) := by
  induction sched generalizing st with
  | nil => exact hinv
  | cons i sched ih => exact ih (st.step i) (Inv_step fn w l ctxs st i hinv)

/-! ## Concurrent calls: every call ends -/

theorem act_rank (mem : Shared W C T) (onceM : Mutex) (pc : Pc W C T)
    (r : Shared W C T × Mutex × Pc W C T) (h : pc.act mem onceM = some r) :
    r.2.2.rank < pc.rank := by
  cases pc with
  | enter c =>
    cases hd : mem.sys.p.once.done <;> simp [Pc.act, hd] at h <;> subst h <;> simp [Pc.rank]
  | lockOnce c =>
    cases hl : onceM.locked <;> simp [Pc.act, Mutex.Lock, hl] at h
    subst h; simp [Pc.rank]
  | check c =>
    cases hd : mem.sys.p.once.done <;> simp [Pc.act, hd] at h <;> subst h <;> simp [Pc.rank]
  | lockMu c =>
    cases hl : mem.mu.locked <;> simp [Pc.act, Mutex.Lock, hl] at h
    subst h; simp [Pc.rank]
  | running r0 => simp [Pc.act] at h; subst h; simp [Pc.rank]
  | unlockMu pan => simp [Pc.act] at h; subst h; simp [Pc.rank]
  | setDone pan => simp [Pc.act] at h; subst h; simp [Pc.rank]
  | unlockOnce pan =>
    cases pan <;> simp [Pc.act] at h <;> subst h <;> simp [Pc.rank]
  | ret => simp [Pc.act] at h; subst h; simp [Pc.rank]
  | finished o => simp [Pc.act] at h

theorem sum_rank_set_lt (gs : List (Pc W C T)) (k : Nat) (pc pc1 : Pc W C T)
    (hk : gs[k]? = some pc) (hlt : pc1.rank < pc.rank) :
    ((gs.set k pc1).map Pc.rank).sum < (gs.map Pc.rank).sum := by
  induction gs generalizing k with
  | nil => simp at hk
  | cons a gs ih =>
    cases k with
    | zero =>
      simp only [List.getElem?_cons_zero, Option.some.injEq] at hk
      subst hk
      simp only [List.set, List.map_cons, List.sum_cons]
      omega
    | succ k =>
      simp only [List.getElem?_cons_succ] at hk
      have := ih k hk
      simp only [List.set, List.map_cons, List.sum_cons]
      omega

theorem step_fuel_of_act (st : Conc W C T) (k : Nat) (pc : Pc W C T)
    (hk : st.gs[k]? = some pc)
    (hact : (pc.act st.mem st.onceM).isSome = true) : (st.step k).fuel < st.fuel := by
  cases hr : pc.act st.mem st.onceM with
  | none => rw [hr] at hact; cases hact
  | some r =>
    simp only [Conc.step, hk, hr, Conc.fuel]
    exact sum_rank_set_lt st.gs k pc r.2.2 hk (act_rank st.mem st.onceM pc r hr)

theorem holdsMu_act (mem : Shared W C T) (onceM : Mutex) (pc : Pc W C T)
    (h : pc.holdsMu = true) : (pc.act mem onceM).isSome = true := by
  cases pc <;> first | rfl | cases h

/-- In a state of a run in which some call has not ended, some goroutine can take a
step: a goroutine waits only for a mutex that another one holds, and the holder of
`p.mu` never waits. -/
theorem exists_act [Inhabited T] (fn : InitFn W C T) (w : W) (l : List (Call C))
    (ctxs : List C) (st : Conc W C T) (hinv : Inv fn w l ctxs st) (k : Nat)
    (pc : Pc W C T) (hk : st.gs[k]? = some pc) (hpc : pc.outcome = none) :
    ∃ (i : Nat) (pi : Pc W C T),
      st.gs[i]? = some pi ∧ (pi.act st.mem st.onceM).isSome = true := by
  have muCase : st.mem.mu.locked = true →
      ∃ (i : Nat) (pi : Pc W C T),
        st.gs[i]? = some pi ∧ (pi.act st.mem st.onceM).isSome = true := by
    intro hl
    obtain ⟨j, pj, hj, hpj⟩ := hinv.mu.2.2 hl
    exact ⟨j, pj, hj, holdsMu_act st.mem st.onceM pj hpj⟩
  have lockMuCase : ∀ (i : Nat) (c : C), st.gs[i]? = some (Pc.lockMu c) →
      ∃ (i : Nat) (pi : Pc W C T),
        st.gs[i]? = some pi ∧ (pi.act st.mem st.onceM).isSome = true := by
    intro i c hi
    cases hl : st.mem.mu.locked with
    | true => exact muCase hl
    | false => exact ⟨i, _, hi, by simp [Pc.act, Mutex.Lock, hl]⟩
  have doneCase : ∀ (i : Nat) (pi : Pc W C T), st.gs[i]? = some pi →
      (∀ b : Bool, st.mem.sys.p.once.done = b → (pi.act st.mem st.onceM).isSome = true) →
      ∃ (i : Nat) (pi : Pc W C T),
        st.gs[i]? = some pi ∧ (pi.act st.mem st.onceM).isSome = true := by
    intro i pi hi h
    exact ⟨i, pi, hi, h _ rfl⟩
  cases pc with
  | enter c =>
    refine doneCase k _ hk ?_
    intro b hd
    cases b <;> simp [Pc.act, hd]
  | lockOnce c =>
    cases hl : st.onceM.locked with
    | false => exact ⟨k, _, hk, by simp [Pc.act, Mutex.Lock, hl]⟩
    | true =>
      obtain ⟨i, pi, hi, hpi⟩ := hinv.once.2.2 hl
      cases pi with
      | check c1 =>
        refine doneCase i _ hi ?_
        intro b hd
        cases b <;> simp [Pc.act, hd]
      | lockMu c1 => exact lockMuCase i c1 hi
      | running r0 => exact ⟨i, _, hi, rfl⟩
      | unlockMu pan => exact ⟨i, _, hi, rfl⟩
      | setDone pan => exact ⟨i, _, hi, rfl⟩
      | unlockOnce pan => cases pan <;> exact ⟨i, _, hi, rfl⟩
      | enter c1 => cases hpi
      | lockOnce c1 => cases hpi
      | ret => cases hpi
      | finished o => cases hpi
  | check c =>
    refine doneCase k _ hk ?_
    intro b hd
    cases b <;> simp [Pc.act, hd]
  | lockMu c => exact lockMuCase k c hk
  | running r0 => exact ⟨k, _, hk, rfl⟩
  | unlockMu pan => exact ⟨k, _, hk, rfl⟩
  | setDone pan => exact ⟨k, _, hk, rfl⟩
  | unlockOnce pan => cases pan <;> exact ⟨k, _, hk, rfl⟩
  | ret => exact ⟨k, _, hk, rfl⟩
  | finished o => cases hpc

theorem not_allFinished (st : Conc W C T) (h : st.allFinished = false) :
    ∃ (k : Nat) (pc : Pc W C T), st.gs[k]? = some pc ∧ pc.outcome = none := by
  unfold Conc.allFinished at h
  have h2 : ¬ (st.gs.all (fun pc => pc.outcome.isSome) = true) := by
    rw [h]; exact Bool.false_ne_true
  rw [List.all_eq_true] at h2
  have h3 : ∃ pc, pc ∈ st.gs ∧ ¬ (pc.outcome.isSome = true) := by
    by_contra hcon
    apply h2
    intro x hx
    by_contra hx2
    exact hcon ⟨x, hx, hx2⟩
  obtain ⟨pc, hmem, hpc⟩ := h3
  obtain ⟨k, hk⟩ := List.mem_iff_getElem?.mp hmem
  refine ⟨k, pc, hk, ?_⟩
  cases ho : pc.outcome with
  | none => rfl
  | some o => rw [ho] at hpc; exact (hpc rfl).elim

theorem run_append_conc (st : Conc W C T) (a b : List Nat) :
    st.run (a ++ b) = (st.run a).run b := by
  simp [Conc.run, List.foldl_append]

/-! ## Concurrent calls: round-robin scheduling ends every call -/

theorem step_fuel_le (st : Conc W C T) (k : Nat) : (st.step k).fuel ≤ st.fuel := by
  cases hk : st.gs[k]? with
  | none => simp [Conc.step, hk]
  | some pc =>
    cases hr : pc.act st.mem st.onceM with
    | none => simp [Conc.step, hk, hr]
    | some r =>
      have := step_fuel_of_act st k pc hk (by rw [hr]; rfl)
      omega

theorem run_fuel_le (idxs : List Nat) (st : Conc W C T) : (st.run idxs).fuel ≤ st.fuel := by
  induction idxs generalizing st with
  | nil => exact Nat.le_refl _
  | cons i idxs ih =>
    have h1 := ih (st.step i)
    have h2 := step_fuel_le st i
    have e : st.run (i :: idxs) = (st.step i).run idxs := rfl
    rw [e]
    omega

theorem round_fuel_lt (idxs : List Nat) (st : Conc W C T)
    (h : ∃ (i : Nat) (pi : Pc W C T), i ∈ idxs ∧ st.gs[i]? = some pi
      ∧ (pi.act st.mem st.onceM).isSome = true) :
    (st.run idxs).fuel < st.fuel := by
  induction idxs generalizing st with
  | nil =>
    obtain ⟨i, _, hi, _⟩ := h
    cases hi
  | cons j idxs ih =>
    have e : st.run (j :: idxs) = (st.step j).run idxs := rfl
    rw [e]
    have hrest := run_fuel_le idxs (st.step j)
    cases hk : st.gs[j]? with
    | none =>
      have hs : st.step j = st := by simp [Conc.step, hk]
      rw [hs]
      apply ih st
      obtain ⟨i, pi, hi, hgi, hact⟩ := h
      rcases List.mem_cons.mp hi with hij | hmem
      · subst hij
        rw [hk] at hgi
        cases hgi
      · exact ⟨i, pi, hmem, hgi, hact⟩
    | some pc =>
      cases hr : pc.act st.mem st.onceM with
      | some r =>
        have := step_fuel_of_act st j pc hk (by rw [hr]; rfl)
        omega
      | none =>
        have hs : st.step j = st := by simp [Conc.step, hk, hr]
        rw [hs]
        apply ih st
        obtain ⟨i, pi, hi, hgi, hact⟩ := h
        rcases List.mem_cons.mp hi with hij | hmem
        · subst hij
          rw [hk] at hgi
          cases hgi
          rw [hr] at hact
          cases hact
        · exact ⟨i, pi, hmem, hgi, hact⟩

theorem step_of_allFinished (st : Conc W C T) (h : st.allFinished = true) (k : Nat) :
    st.step k = st := by
  cases hk : st.gs[k]? with
  | none => simp [Conc.step, hk]
  | some pc =>
    have hall : ∀ pc, pc ∈ st.gs → pc.outcome.isSome = true := by
      unfold Conc.allFinished at h
      rw [List.all_eq_true] at h
      exact h
    have hs := hall pc (List.getElem?_mem hk)
    cases pc with
    | finished o => simp [Conc.step, hk, Pc.act]
    | _ => cases hs

theorem run_of_allFinished (idxs : List Nat) (st : Conc W C T)
    (h : st.allFinished = true) : st.run idxs = st := by
  induction idxs with
  | nil => rfl
  | cons i idxs ih =>
    have e : st.run (i :: idxs) = (st.step i).run idxs := rfl
    rw [e, step_of_allFinished st h i, ih]

theorem rounds_finish [Inhabited T] (fn : InitFn W C T) (w : W) (l : List (Call C))
    (ctxs : List C) (k : Nat) (st : Conc W C T) (hinv : Inv fn w l ctxs st) :
    (st.run (roundRobin ctxs.length k)).allFinished = true
      ∨ (st.run (roundRobin ctxs.length k)).fuel + k ≤ st.fuel := by
  induction k generalizing st with
  | zero => exact Or.inr (Nat.le_refl _)
  | succ k ih =>
    cases hfin : st.allFinished with
    | true =>
      rw [run_of_allFinished _ st hfin]
      exact Or.inl hfin
    | false =>
      obtain ⟨j, pc, hj, hpc⟩ := not_allFinished st hfin
      obtain ⟨i, pi, hi, hact⟩ := exists_act fn w l ctxs st hinv j pc hj hpc
      have hlt : i < ctxs.length := by
        rw [← hinv.len]
        rcases Nat.lt_or_ge i st.gs.length with h | h
        · exact h
        · rw [List.getElem?_eq_none h] at hi
          cases hi
      have hround := round_fuel_lt (List.range ctxs.length) st
        ⟨i, pi, List.mem_range.mpr hlt, hi, hact⟩
      have e : st.run (roundRobin ctxs.length (k + 1))
          = (st.run (List.range ctxs.length)).run (roundRobin ctxs.length k) := by
        simp [roundRobin, run_append_conc]
      rw [e]
      rcases ih (st.run (List.range ctxs.length))
        (Inv_run fn w l ctxs _ st hinv) with h | h
      · exact Or.inl h
      · exact Or.inr (by omega)

theorem rank_le (pc : Pc W C T) : pc.rank ≤ 9 := by
  cases pc <;> simp [Pc.rank]

theorem sum_rank_le (gs : List (Pc W C T)) : (gs.map Pc.rank).sum ≤ 9 * gs.length := by
  induction gs with
  | nil => simp
  | cons a gs ih =>
    have := rank_le a
    simp only [List.map_cons, List.sum_cons, List.length_cons]
    omega

theorem allFinished_of_fuel_zero (st : Conc W C T) (h : st.fuel = 0) :
    st.allFinished = true := by
  cases hfin : st.allFinished with
  | true => rfl
  | false =>
    obtain ⟨k, pc, hk, hpc⟩ := not_allFinished st hfin
    have hpos : 0 < pc.rank := by
      cases pc with
      | finished o => cases hpc
      | _ => simp [Pc.rank]
    have hle : pc.rank ≤ st.fuel := by
      unfold Conc.fuel
      exact List.single_le_sum (fun _ _ => Nat.zero_le _) _
        (List.mem_map.mpr ⟨pc, List.getElem?_mem hk, rfl⟩)
    omega

/-- After any schedule, round-robin scheduling brings every call to its end within
`9 * N` rounds. -/
theorem roundRobin_finishes [Inhabited T] (fn : InitFn W C T) (w : W) (l : List (Call C))
    (ctxs : List C) (st : Conc W C T) (hinv : Inv fn w l ctxs st) :
    (st.run (roundRobin ctxs.length (9 * ctxs.length))).allFinished = true := by
  rcases rounds_finish fn w l ctxs (9 * ctxs.length) st hinv with h | h
  · exact h
  · have hle : st.fuel ≤ 9 * ctxs.length := by
      rw [← hinv.len]
      exact sum_rank_le st.gs
    exact allFinished_of_fuel_zero _ (by omega)

/-! ## Concurrent calls: exactly one invocation -/

set_option maxRecDepth 20000

theorem early_not_finished (pc : Pc W C T) (he : pc.early = true)
    (hs : pc.outcome.isSome = true) : False := by
  cases pc <;> simp [Pc.early, Pc.outcome] at he hs

/-- C6, as amended.  Take `N ≥ 1` goroutines (so every `N ≥ 10`) that call `Get`
concurrently on a fresh provider, each with its own context, under any schedule.
The calls all end: whatever the schedule has done, `9 * N` rounds of round-robin
scheduling after it bring every call to its end.  At no point has the initializer been
invoked more than once, and when all `N` calls have ended it has been invoked exactly
once, with the context `c` of one of the calls.  If that invocation succeeded, all `N`
calls have returned the same value, the one the initializer produced on `c`. -/
theorem C6_exactly_once_concurrent [Inhabited T] (fn : InitFn W C T) (w : W)
    (l : List (Call C)) (ctxs : List C) (sched : List Nat) (hN : 0 < ctxs.length) :
    ((Conc.start fn w l ctxs).run
        (sched ++ roundRobin ctxs.length (9 * ctxs.length))).allFinished = true
      ∧ ((Conc.start fn w l ctxs).run sched).mem.sys.calls.length ≤ l.length + 1
      ∧ (((Conc.start fn w l ctxs).run sched).allFinished = true →
          ∃ c, c ∈ ctxs
            ∧ ((Conc.start fn w l ctxs).run sched).mem.sys.calls
                = l ++ [{ slot := Slot.fn, ctx := c }]
            ∧ ((Conc.start fn w l ctxs).run sched).mem.sys.world = (fn c w).2
            ∧ ((fn c w).1.2 = none →
                ((Conc.start fn w l ctxs).run sched).outcomes
                  = List.replicate ctxs.length (some (Outcome.returned (fn c w).1.1)))) := by
  have hinv := Inv_run fn w l ctxs sched _ (Inv_start fn w l ctxs)
  refine ⟨?_, ?_, ?_⟩
  · rw [run_append_conc]
    exact roundRobin_finishes fn w l ctxs _ hinv
  · rcases hinv.stage with hE | ⟨c, _, hL⟩
    · rw [hE.2.1]; omega
    · rw [hL.1]; simp
  · intro hfin
    have hall : ∀ pc, pc ∈ ((Conc.start fn w l ctxs).run sched).gs →
        pc.outcome.isSome = true := by
      have h := hfin
      unfold Conc.allFinished at h
      rw [List.all_eq_true] at h
      exact h
    rcases hinv.stage with hE | ⟨c, hc, hL⟩
    · -- some call exists, and a call that has ended is not at an early position
      have hlen := hinv.len
      cases hg : ((Conc.start fn w l ctxs).run sched).gs with
      | nil => rw [hg] at hlen; simp at hlen; omega
      | cons pc rest =>
        have h0 : ((Conc.start fn w l ctxs).run sched).gs[0]? = some pc := by
          rw [hg]; simp
        have he := hE.2.2.2 0 pc h0
        have hs := hall pc (by rw [hg]; exact List.mem_cons_self _ _)
        exact (early_not_finished pc he hs).elim
    · refine ⟨c, hc, hL.1, hL.2.1, ?_⟩
      intro hok
      obtain ⟨_, hgood⟩ := hL.2.2.2.2 hok
      unfold Conc.outcomes
      rw [List.eq_replicate_iff]
      refine ⟨by rw [List.length_map, hinv.len], ?_⟩
      intro b hb
      obtain ⟨pc, hpc, hbo⟩ := List.mem_map.mp hb
      obtain ⟨i, hi⟩ := List.mem_iff_getElem?.mp hpc
      have hg := hgood i pc hi
      have hs := hall pc hpc
      cases pc with
      | finished o =>
        have ho : o = Outcome.returned (fn c w).1.1 := hg
        rw [← hbo, ho]
        rfl
      | _ => cases hs

/-- Witness for C6: ten goroutines on a provider of `realInit`, each goroutine taking
its first step before goroutine 3 wins the race; the one invocation is made with the
context of goroutine 3 and all ten calls return `RealClient`. -/
theorem C6_exactly_once_concurrent_witness :
    0 < tenCtxs.length
      ∧ ((Conc.start realInit 0 [] tenCtxs).run tenSchedule).allFinished = true
      ∧ ∃ c, c ∈ tenCtxs
          ∧ ((Conc.start realInit 0 [] tenCtxs).run tenSchedule).mem.sys.calls
              = [] ++ [{ slot := Slot.fn, ctx := c }]
          ∧ ((Conc.start realInit 0 [] tenCtxs).run tenSchedule).mem.sys.world
              = (realInit c 0).2
          ∧ ((realInit c 0).1.2 = none →
              ((Conc.start realInit 0 [] tenCtxs).run tenSchedule).outcomes
                = List.replicate tenCtxs.length
                    (some (Outcome.returned (realInit c 0).1.1))) :=
  ⟨by decide, by decide,
    (C6_exactly_once_concurrent realInit 0 [] tenCtxs tenSchedule (by decide)).2.2
      (by decide)⟩

/-- C6, counterexample.  Ten goroutines call `Get` concurrently on a fresh provider
whose initializer fails.  Under `tenSchedule` all ten calls end and the initializer is
invoked once, by goroutine 3, but the ten calls do not return the same value: the call
of goroutine 3 panics, and the other nine return `nil`. -/
theorem C6_failing_initializer_counterexample :
    10 ≤ tenCtxs.length
      ∧ ((Conc.start failingInit 0 [] tenCtxs).run tenSchedule).allFinished = true
      ∧ ((Conc.start failingInit 0 [] tenCtxs).run tenSchedule).mem.sys.calls
          = [{ slot := Slot.fn, ctx := 3 }]
      ∧ ((Conc.start failingInit 0 [] tenCtxs).run tenSchedule).outcomes
          = [some (Outcome.returned Client.nil), some (Outcome.returned Client.nil),
              some (Outcome.returned Client.nil),
              some (Outcome.panicked
                (GoError.wrapError "initialization failed: failed to initialize"
                  (GoError.errorString "failed to initialize"))),
              some (Outcome.returned Client.nil), some (Outcome.returned Client.nil),
              some (Outcome.returned Client.nil), some (Outcome.returned Client.nil),
              some (Outcome.returned Client.nil), some (Outcome.returned Client.nil)]
      ∧ ¬ ∃ v : Client,
          ((Conc.start failingInit 0 [] tenCtxs).run tenSchedule).outcomes
            = List.replicate 10 (some (Outcome.returned v)) := by
  refine ⟨by decide, by decide, by decide, by decide, ?_⟩
  rintro ⟨v, hv⟩
  have h3 : ((Conc.start failingInit 0 [] tenCtxs).run tenSchedule).outcomes[3]?
      = (List.replicate 10 (some (Outcome.returned v)))[3]? := by rw [hv]
  have hl : ((Conc.start failingInit 0 [] tenCtxs).run tenSchedule).outcomes[3]?
      = some (some (Outcome.panicked
          (GoError.wrapError "initialization failed: failed to initialize"
            (GoError.errorString "failed to initialize")))) := by decide
  rw [hl] at h3
  simp at h3

/-- A goroutine alone: the nine steps of its call give the outcome and the state of the
sequential `Get` on the fresh provider. -/
theorem solo_eq_Get [Inhabited T] (fn : InitFn W C T) (w : W) (l : List (Call C))
    (c : C) :
    ((Conc.start fn w l [c]).run [0, 0, 0, 0, 0, 0, 0, 0, 0]).outcomes
        = [some ((Sys.Provide fn w l).Get c).1]
      ∧ ((Conc.start fn w l [c]).run [0, 0, 0, 0, 0, 0, 0, 0, 0]).mem.sys
        = ((Sys.Provide fn w l).Get c).2 := by
  cases herr : (fn c w).1.2 with
  | none =>
    have hok : ((Sys.Provide fn w l).p.selected.2 c (Sys.Provide fn w l).world).1.2
        = none := herr
    rw [Get_ok _ c rfl hok]
    simp [Conc.run, Conc.step, Conc.start, Pc.act, Mutex.Lock, Mutex.Unlock, Sys.Provide,
      Provide, Shared.GetCommit, Shared.GetUnlock, Provider.selected, herr, Conc.outcomes,
      Pc.outcome]
  | some e =>
    have he : ((Sys.Provide fn w l).p.selected.2 c (Sys.Provide fn w l).world).1.2
        = some e := herr
    rw [Get_err _ c rfl e he]
    simp [Conc.run, Conc.step, Conc.start, Pc.act, Mutex.Lock, Mutex.Unlock, Sys.Provide,
      Provide, Shared.GetCommit, Shared.GetUnlock, Provider.selected, herr, Conc.outcomes,
      Pc.outcome]

end provider
